import Mathlib

/-!
Verification of the NortekDVL driver core (DUNE `Sensors/NortekDVL`):
a shallow embedding in Lean 4 of `Reader.hpp` (handshake state machine,
binary frame decoder with resynchronization, 16-bit checksum) and of
`Task.cpp`'s `processBottomTrack`, together with theorems settling the
specification's claims about them.

Conventions of the embedding:
* bytes are `Nat` values; the `(uint8_t)` casts and `uint8_t` storage of
  the C++ are modelled by reduction modulo 256 exactly where the source
  performs a conversion;
* 16-bit arithmetic (`uint16_t`) is `Nat` arithmetic modulo 65536;
* IEEE-754 `float`/`double` values are not interpreted: measurement
  payloads carry the raw bytes they were decoded from, and arithmetic on
  them is kept symbolic (see `RVal`);
* the numeric connection parameters (`double` fields formatted with
  `printf`-style conversions) are modelled by their formatted decimal
  text, since the claims concern which commands are written and in which
  order, not the floating-point formatting itself.
-/

namespace NortekDVL

/-! ## Byte-level primitives -/

/-- The 16-bit little-endian word `(uint16_t)a | ((uint16_t)b << 8)` built
from the byte values of `a` and `b` (`% 256` models the `uint8_t` type of
the operands), as in `Reader::checksum`. -/
def word16 (a b : Nat) : Nat :=
  (a % 256) ||| ((b % 256) <<< 8)

/-- Accumulator loop of `Reader::checksum`: add each non-overlapping
little-endian 16-bit word to `rs` with `uint16_t` wraparound; if one byte
is left over, add it shifted into the high byte. -/
def checksumAux : List Nat → Nat → Nat
  | a :: b :: rest, rs => checksumAux rest ((rs + word16 a b) % 65536)
  | [a], rs => (rs + ((a % 256) <<< 8)) % 65536
  | [], rs => rs

/-- `Reader::checksum`: seed `0xB58C`, then fold the byte range as 16-bit
little-endian words. -/
def checksum (data : List Nat) : Nat :=
  checksumAux data 0xB58C

/-- The sequence of 16-bit words the specification describes: the byte
range split into non-overlapping little-endian 16-bit words, a leftover
odd byte contributing `byte << 8`. -/
def specWords : List Nat → List Nat
  | a :: b :: rest => (a % 256 + 256 * (b % 256)) :: specWords rest
  | [a] => [256 * (a % 256)]
  | [] => []

/-- The checksum as the specification words it: seed `0xB58C` plus the sum
of all 16-bit words, reduced modulo 65536 (no carry into a wider
accumulator). -/
def checksumSpec (data : List Nat) : Nat :=
  (0xB58C + (specWords data).sum) % 65536

theorem word16_eq_add (a b : Nat) : word16 a b = a % 256 + 256 * (b % 256) := by
  have hlt : a % 256 < 2 ^ 8 := Nat.mod_lt _ (by norm_num)
  calc word16 a b
      = (b % 256) <<< 8 ||| (a % 256) := Nat.lor_comm _ _
    _ = 2 ^ 8 * (b % 256) ||| (a % 256) := by
        rw [Nat.shiftLeft_eq, Nat.mul_comm]
    _ = 2 ^ 8 * (b % 256) + (a % 256) := (Nat.mul_add_lt_is_or hlt _).symm
    _ = a % 256 + 256 * (b % 256) := by ring

theorem checksumAux_eq :
    (l : List Nat) → (rs : Nat) →
      checksumAux l rs = if l = [] then rs else (rs + (specWords l).sum) % 65536
  | [], _ => rfl
  | [a], rs => by
      simp only [checksumAux, specWords, Nat.shiftLeft_eq, List.sum_cons, List.sum_nil]
      norm_num [Nat.mul_comm]
  | a :: b :: rest, rs => by
      rw [checksumAux, checksumAux_eq rest ((rs + word16 a b) % 65536)]
      rcases rest with - | ⟨c, rest'⟩
      · simp [specWords, word16_eq_add, Nat.add_comm]
      · simp only [specWords, List.sum_cons, word16_eq_add, reduceCtorEq, if_false]
        rw [Nat.mod_add_mod, Nat.add_assoc]

/-- **C1.** `Reader::checksum` is a pure function of its byte range and
computes exactly the 16-bit sum the specification describes: starting
from seed `0xB58C`, every non-overlapping little-endian 16-bit word is
added with 16-bit wraparound, an odd leftover byte contributes
`byte << 8`, and the empty range yields `0xB58C`. -/
theorem checksum_matches_spec :
    (∀ data : List Nat, checksum data = checksumSpec data) ∧ checksum [] = 0xB58C := by
  constructor
  · intro data
    rw [checksum, checksumAux_eq data 0xB58C, checksumSpec]
    rcases data with - | ⟨a, l⟩
    · simp [specWords]
    · simp
  · rfl

example : checksum [0xA5, 0x0A, 0x00, 0x00, 0x00, 0x00, 0x8C, 0xB5] = 0x75BD := by decide

example : checksum [0x01] = (0xB58C + 0x0100) % 65536 := by decide

/-! ## The protocol state machine (`m_state`) -/

/-- The `MSTA_*` states of `Reader`. -/
inductive MState
  | init
  | conf
  | error
  | seekHdr
  | seekCachedHdr
  | cacheHdr
  | cacheData
deriving DecidableEq, Repr

/-- `#define HDR_SIZE 10`. -/
def HDR_SIZE : Nat := 10

/-- The state touched by the binary-mode decoding loop: `m_state` together
with the frame cache `m_cache[0..m_cached)`. -/
structure DecSt where
  state : MState
  cache : List Nat
deriving DecidableEq, Repr

/-- `size_t` subtraction `a - b` with wraparound, as in
`(size_t)HDR_SIZE - m_cached`: for arguments below `2 ^ 64` — every state
the C program can represent — this is exactly the `size_t` value. (On the
unrepresentable region `b - a ≡ 0 [MOD 2 ^ 64]`, `b > a`, it returns
`2 ^ 64` instead of `0`, which keeps the loop model total; no reachable
configuration is affected.) -/
def sizeSub (a b : Nat) : Nat :=
  if b ≤ a then a - b else 2 ^ 64 - (b - a) % 2 ^ 64

/-- The scan `for (i = ...; ...) if ((uint8_t)m_cache[i] == 0xA5)` over the
cached bytes, returning the index of the first sync byte found. -/
def seekAux : List Nat → Nat → Option Nat
  | [], _ => none
  | b :: rest, i => if b % 256 == 0xA5 then some i else seekAux rest (i + 1)

/-- `MSTA_SEEK_CACHED_HDR`'s search of the already-cached bytes, starting
at offset 1, for another occurrence of the sync byte. -/
def resyncIndex (cache : List Nat) : Option Nat :=
  seekAux (cache.drop 1) 1

/-- Result of one iteration of the `while (pos < rv)` loop of
`Reader::read`: the new decoder state, the frames dispatched by
`processFrame`, and the not-yet-consumed rest of the read buffer. -/
structure IterOut where
  st : DecSt
  frames : List (List Nat)
  rest : List Nat
deriving DecidableEq, Repr

/-- One iteration of the binary-mode `while (pos < rv)` loop of
`Reader::read` (the `switch (m_state)`), on the unconsumed part `buf` of
the read buffer. Bytes copied into the `uint8_t` cache are reduced mod
256; `sizeSub` reproduces the `size_t` arithmetic of the `std::min`
bounds. Text-mode states are never processed by this loop and are
returned unchanged. -/
def iter (s : DecSt) (buf : List Nat) : IterOut :=
  match s.state with
  | .seekHdr =>
    match buf.dropWhile (fun b => b % 256 != 0xA5) with
    | [] => ⟨s, [], []⟩
    | rest => ⟨⟨.cacheHdr, []⟩, [], rest⟩
  | .seekCachedHdr =>
    match resyncIndex s.cache with
    | some i => ⟨⟨.cacheHdr, s.cache.drop i⟩, [], buf⟩
    | none =>
      -- `if (m_state != MSTA_CACHE_HDR && i == m_cached)`: with an empty
      -- cache the `i == m_cached` test fails (i = 1, m_cached = 0) and the
      -- C loop spins forever consuming nothing; that configuration is
      -- unreachable (the cache holds at least a full header whenever this
      -- state is entered) and is modelled as dropping the rest of the read.
      if s.cache.length == 0 then ⟨s, [], []⟩
      else ⟨⟨.seekHdr, s.cache⟩, [], buf⟩
  | .cacheHdr =>
    let len := min buf.length (sizeSub HDR_SIZE s.cache.length)
    let cache' := s.cache ++ (buf.take len).map (· % 256)
    let rest := buf.drop len
    if cache'.length == HDR_SIZE then
      if cache'.getD 1 0 != HDR_SIZE
          || word16 (cache'.getD 8 0) (cache'.getD 9 0) != checksum (cache'.take (HDR_SIZE - 2)) then
        ⟨⟨.seekCachedHdr, cache'⟩, [], rest⟩
      else
        ⟨⟨.cacheData, cache'⟩, [], rest⟩
    else
      ⟨⟨.cacheHdr, cache'⟩, [], rest⟩
  | .cacheData =>
    let datalen := word16 (s.cache.getD 4 0) (s.cache.getD 5 0)
    let len := min buf.length (sizeSub (HDR_SIZE + datalen) s.cache.length)
    let cache' := s.cache ++ (buf.take len).map (· % 256)
    let rest := buf.drop len
    if cache'.length == HDR_SIZE + datalen then
      if word16 (cache'.getD 6 0) (cache'.getD 7 0) != checksum (cache'.drop HDR_SIZE) then
        ⟨⟨.seekCachedHdr, cache'⟩, [], rest⟩
      else
        ⟨⟨.seekHdr, cache'⟩, [cache'], rest⟩
    else
      ⟨⟨.cacheData, cache'⟩, [], rest⟩
  | _ => ⟨s, [], []⟩

/-- Rank of a configuration: iterations of the loop that consume no input
strictly decrease `4 * cache.length + rankOf`. -/
def rankOf (s : DecSt) : Nat :=
  match s.state with
  | .cacheHdr => if s.cache.length = 0 then 0 else 5
  | .seekHdr => 1
  | .seekCachedHdr => 2
  | .cacheData => 3
  | _ => 0

def mu2 (s : DecSt) : Nat := 4 * s.cache.length + rankOf s

/-- A strict upper bound on the number of iterations the
`while (pos < rv)` loop performs on `buf` from state `s`. -/
def loopFuel (s : DecSt) (buf : List Nat) : Nat :=
  10 * buf.length + mu2 s + 1

/-- The loop of `Reader::read`, iterated on explicit fuel. -/
def readLoopF : Nat → DecSt → List Nat → DecSt × List (List Nat)
  | 0, s, _ => (s, [])
  | fuel + 1, s, buf =>
    if buf.isEmpty then (s, [])
    else
      let o := iter s buf
      let r := readLoopF fuel o.st o.rest
      (r.1, o.frames ++ r.2)

/-- The binary-mode part of `Reader::read`: the full `while (pos < rv)`
loop on one read buffer. `loopFuel` strictly bounds the iteration count
(theorem `iter_fuel`), so this is the exact loop. -/
def readLoop (s : DecSt) (buf : List Nat) : DecSt × List (List Nat) :=
  readLoopF (loopFuel s buf) s buf

/-- Successive calls of `Reader::read` in binary mode: each element of
`chunks` is the byte sequence obtained by one transport read. -/
def runChunksD : DecSt → List (List Nat) → DecSt × List (List Nat)
  | s, [] => (s, [])
  | s, c :: cs =>
    let r := readLoop s c
    let r' := runChunksD r.1 cs
    (r'.1, r.2 ++ r'.2)

/-! ### The loop really is `readLoop`: fuel adequacy -/

theorem sizeSub_of_le {a b : Nat} (h : b ≤ a) : sizeSub a b = a - b := by
  simp [sizeSub, h]

theorem sizeSub_eq_zero_iff {a b : Nat} : sizeSub a b = 0 ↔ a = b := by
  unfold sizeSub
  split
  · omega
  · have h1 : (b - a) % 2 ^ 64 < 2 ^ 64 := Nat.mod_lt _ (by norm_num)
    constructor
    · intro h2
      omega
    · intro h2
      omega

theorem seekAux_some_bounds :
    ∀ (l : List Nat) (j i : Nat), seekAux l j = some i → j ≤ i ∧ i < j + l.length
  | [], _, _, h => by simp [seekAux] at h
  | b :: rest, j, i, h => by
    unfold seekAux at h
    split at h
    · simp only [Option.some.injEq] at h
      simp [← h]
    · have := seekAux_some_bounds rest (j + 1) i h
      simp only [List.length_cons]
      omega

theorem resyncIndex_some_bounds {cache : List Nat} {i : Nat}
    (h : resyncIndex cache = some i) : 1 ≤ i ∧ i < cache.length := by
  have hb := seekAux_some_bounds (cache.drop 1) 1 i h
  rcases cache with - | ⟨c, rest⟩
  · simp [List.drop] at hb
    omega
  · simp only [List.length_drop, List.length_cons] at hb ⊢
    omega

theorem rankOf_cacheHdr (c : List Nat) :
    (c.length = 0 ∧ rankOf ⟨.cacheHdr, c⟩ = 0) ∨ (c.length ≠ 0 ∧ rankOf ⟨.cacheHdr, c⟩ = 5) := by
  by_cases h : c.length = 0
  · exact Or.inl ⟨h, by simp [rankOf, h]⟩
  · exact Or.inr ⟨h, by simp [rankOf, h]⟩

theorem iter_fuel (s : DecSt) (buf : List Nat) (h : buf ≠ []) :
    10 * (iter s buf).rest.length + mu2 (iter s buf).st < 10 * buf.length + mu2 s := by
  have hb : 0 < buf.length := List.length_pos.mpr h
  obtain ⟨st, cache⟩ := s
  cases st
  case init =>
    simp only [iter, List.length_nil]
    omega
  case conf =>
    simp only [iter, List.length_nil]
    omega
  case error =>
    simp only [iter, List.length_nil]
    omega
  case seekHdr =>
    rcases hd : buf.dropWhile (fun b => b % 256 != 0xA5) with - | ⟨x, rest'⟩
    · simp only [iter, hd, List.length_nil]
      omega
    · have hlen : (x :: rest').length ≤ buf.length := by
        rw [← hd]
        exact (List.dropWhile_sublist _).length_le
      have h0 : mu2 ⟨MState.cacheHdr, ([] : List Nat)⟩ = 0 := rfl
      have h1 : mu2 ⟨MState.seekHdr, cache⟩ = 4 * cache.length + 1 := rfl
      simp only [iter, hd, h0, h1]
      omega
  case seekCachedHdr =>
    have hsrc : mu2 ⟨MState.seekCachedHdr, cache⟩ = 4 * cache.length + 2 := rfl
    rcases hr : resyncIndex cache with - | i
    · by_cases hc : cache.length = 0
      · have : (cache.length == 0) = true := by simpa using hc
        simp only [iter, hr, this, if_true, List.length_nil]
        omega
      · have : (cache.length == 0) = false := by simpa using hc
        have hm : mu2 ⟨MState.seekHdr, cache⟩ = 4 * cache.length + 1 := rfl
        simp only [iter, hr, this, Bool.false_eq_true, if_false, hm, hsrc]
        omega
    · obtain ⟨h1, h2⟩ := resyncIndex_some_bounds hr
      have hdrop : (cache.drop i).length = cache.length - i := List.length_drop ..
      rcases rankOf_cacheHdr (cache.drop i) with ⟨hz, hrk⟩ | ⟨hz, hrk⟩ <;>
        simp only [iter, hr, mu2, hrk, hdrop, hsrc] at * <;> omega
  case cacheHdr =>
    rcases rankOf_cacheHdr cache with ⟨hz, hrk⟩ | ⟨hz, hrk⟩ <;>
    · have hsrc : mu2 ⟨MState.cacheHdr, cache⟩ = 4 * cache.length + rankOf ⟨.cacheHdr, cache⟩ :=
        rfl
      simp only [iter]
      have hlenb : min buf.length (sizeSub HDR_SIZE cache.length) ≤ buf.length :=
        Nat.min_le_left ..
      have hcl : (cache ++ (buf.take (min buf.length (sizeSub HDR_SIZE cache.length))).map
          (· % 256)).length = cache.length + min buf.length (sizeSub HDR_SIZE cache.length) := by
        simp [List.length_take, Nat.min_eq_left hlenb]
      have hrl : (buf.drop (min buf.length (sizeSub HDR_SIZE cache.length))).length
          = buf.length - min buf.length (sizeSub HDR_SIZE cache.length) := List.length_drop ..
      split
      case isTrue hc =>
        have hc' : cache.length + min buf.length (sizeSub HDR_SIZE cache.length) = HDR_SIZE := by
          rw [← hcl]
          simpa using hc
        split
        · have hm : ∀ c : List Nat, mu2 ⟨MState.seekCachedHdr, c⟩ = 4 * c.length + 2 :=
            fun c => rfl
          simp only [hm, hcl, hrl, hsrc, HDR_SIZE] at *
          omega
        · have hm : ∀ c : List Nat, mu2 ⟨MState.cacheData, c⟩ = 4 * c.length + 3 :=
            fun c => rfl
          simp only [hm, hcl, hrl, hsrc, HDR_SIZE] at *
          omega
      case isFalse hc =>
        have hpos : 1 ≤ min buf.length (sizeSub HDR_SIZE cache.length) := by
          by_cases h10 : cache.length = HDR_SIZE
          · exfalso
            apply hc
            rw [beq_iff_eq, hcl, sizeSub_eq_zero_iff.mpr h10.symm]
            omega
          · have : sizeSub HDR_SIZE cache.length ≠ 0 :=
              fun hs => h10 (sizeSub_eq_zero_iff.mp hs).symm
            omega
        rcases rankOf_cacheHdr (cache ++ (buf.take (min buf.length
            (sizeSub HDR_SIZE cache.length))).map (· % 256)) with ⟨hz', hrk'⟩ | ⟨hz', hrk'⟩ <;>
          simp only [mu2, hrk', hcl, hrl, hsrc] at * <;> omega
  case cacheData =>
    have hsrc : mu2 ⟨MState.cacheData, cache⟩ = 4 * cache.length + 3 := rfl
    simp only [iter]
    set dl := word16 (cache.getD 4 0) (cache.getD 5 0) with hdl
    have hlenb : min buf.length (sizeSub (HDR_SIZE + dl) cache.length) ≤ buf.length :=
      Nat.min_le_left ..
    have hcl : (cache ++ (buf.take (min buf.length (sizeSub (HDR_SIZE + dl)
        cache.length))).map (· % 256)).length
        = cache.length + min buf.length (sizeSub (HDR_SIZE + dl) cache.length) := by
      simp [List.length_take, Nat.min_eq_left hlenb]
    have hrl : (buf.drop (min buf.length (sizeSub (HDR_SIZE + dl) cache.length))).length
        = buf.length - min buf.length (sizeSub (HDR_SIZE + dl) cache.length) :=
      List.length_drop ..
    split
    case isTrue hc =>
      have hc' : cache.length + min buf.length (sizeSub (HDR_SIZE + dl) cache.length)
          = HDR_SIZE + dl := by
        rw [← hcl]
        simpa using hc
      split
      · have hm : ∀ c : List Nat, mu2 ⟨MState.seekCachedHdr, c⟩ = 4 * c.length + 2 :=
          fun c => rfl
        simp only [hm, hcl, hrl, hsrc] at *
        omega
      · have hm : ∀ c : List Nat, mu2 ⟨MState.seekHdr, c⟩ = 4 * c.length + 1 :=
          fun c => rfl
        simp only [hm, hcl, hrl, hsrc] at *
        omega
    case isFalse hc =>
      have hpos : 1 ≤ min buf.length (sizeSub (HDR_SIZE + dl) cache.length) := by
        by_cases h10 : cache.length = HDR_SIZE + dl
        · exfalso
          apply hc
          rw [beq_iff_eq, hcl, sizeSub_eq_zero_iff.mpr h10.symm]
          omega
        · have : sizeSub (HDR_SIZE + dl) cache.length ≠ 0 :=
            fun hs => h10 (sizeSub_eq_zero_iff.mp hs).symm
          omega
      have hm : ∀ c : List Nat, mu2 ⟨MState.cacheData, c⟩ = 4 * c.length + 3 :=
        fun c => rfl
      simp only [hm, hcl, hrl, hsrc] at *
      omega

theorem readLoopF_congr :
    ∀ (f g : Nat) (s : DecSt) (buf : List Nat),
      loopFuel s buf ≤ f → loopFuel s buf ≤ g → readLoopF f s buf = readLoopF g s buf := by
  intro f
  induction f using Nat.strong_induction_on with
  | _ f ih =>
    intro g s buf hf hg
    have hpos : 1 ≤ loopFuel s buf := by simp [loopFuel]
    obtain ⟨f', rfl⟩ : ∃ f', f = f' + 1 := ⟨f - 1, by omega⟩
    obtain ⟨g', rfl⟩ : ∃ g', g = g' + 1 := ⟨g - 1, by omega⟩
    show readLoopF (f' + 1) s buf = readLoopF (g' + 1) s buf
    by_cases hb : buf.isEmpty
    · simp [readLoopF, hb]
    · have hne : buf ≠ [] := by simpa [List.isEmpty_iff] using hb
      have hdec := iter_fuel s buf hne
      have hfuel : loopFuel (iter s buf).st (iter s buf).rest ≤ f' := by
        simp only [loopFuel] at hf ⊢
        omega
      have hfuel' : loopFuel (iter s buf).st (iter s buf).rest ≤ g' := by
        simp only [loopFuel] at hg ⊢
        omega
      simp only [readLoopF, hb, Bool.false_eq_true, if_false]
      rw [ih f' (by omega) g' (iter s buf).st (iter s buf).rest hfuel hfuel']

/-- Unfolding equation for `readLoop`: it is exactly the `while (pos < rv)`
loop, one `iter` at a time. -/
theorem readLoop_eq (s : DecSt) (buf : List Nat) :
    readLoop s buf =
      if buf.isEmpty then (s, [])
      else
        let o := iter s buf
        let r := readLoop o.st o.rest
        (r.1, o.frames ++ r.2) := by
  unfold readLoop
  have hpos : 1 ≤ loopFuel s buf := by simp [loopFuel]
  obtain ⟨n, hn⟩ : ∃ n, loopFuel s buf = n + 1 := ⟨loopFuel s buf - 1, by omega⟩
  rw [hn]
  by_cases hb : buf.isEmpty
  · simp [readLoopF, hb]
  · have hne : buf ≠ [] := by simpa [List.isEmpty_iff] using hb
    have hdec := iter_fuel s buf hne
    have hcongr : readLoopF n (iter s buf).st (iter s buf).rest
        = readLoopF (loopFuel (iter s buf).st (iter s buf).rest) (iter s buf).st
            (iter s buf).rest := by
      apply readLoopF_congr
      · simp only [loopFuel] at hn ⊢
        omega
      · exact Nat.le_refl _
    show (if buf.isEmpty then (s, [])
        else
          let o := iter s buf
          let r := readLoopF n o.st o.rest
          (r.1, o.frames ++ r.2))
      = (if buf.isEmpty then (s, [])
        else
          let o := iter s buf
          let r := readLoopF (loopFuel o.st o.rest) o.st o.rest
          (r.1, o.frames ++ r.2))
    rw [if_neg hb, if_neg hb]
    simp only [hcongr]

/-! ## Well-formed frames -/

theorem checksum_lt (l : List Nat) : checksum l < 65536 := by
  rcases hl : l with - | ⟨a, t⟩
  · norm_num [checksum, checksumAux]
  · rw [checksum, checksumAux_eq, if_neg (by simp)]
    exact Nat.mod_lt _ (by norm_num)

theorem mapMod_id {l : List Nat} (h : ∀ x ∈ l, x < 256) : l.map (· % 256) = l := by
  induction l with
  | nil => rfl
  | cons a t ih =>
    simp only [List.map_cons, List.cons.injEq]
    exact ⟨Nat.mod_eq_of_lt (h a (by simp)), ih fun x hx => h x (List.mem_cons_of_mem a hx)⟩

/-- The ten header bytes of a well-formed frame carrying `payload`:
sync `0xA5`, declared header length 10, free type/reserved bytes, the
payload length and payload checksum in little-endian, and the header
checksum over bytes `[0, 8)` in little-endian. -/
def mkHeader (b2 b3 : Nat) (payload : List Nat) : List Nat :=
  let d := payload.length
  let ps := checksum payload
  let h8 := [0xA5, HDR_SIZE, b2, b3, d % 256, d / 256 % 256, ps % 256, ps / 256]
  h8 ++ [checksum h8 % 256, checksum h8 / 256]

/-- A well-formed frame: header followed by the declared payload. -/
def mkFrame (b2 b3 : Nat) (payload : List Nat) : List Nat :=
  mkHeader b2 b3 payload ++ payload

theorem mkHeader_length (b2 b3 : Nat) (payload : List Nat) :
    (mkHeader b2 b3 payload).length = HDR_SIZE := by
  simp [mkHeader, HDR_SIZE]

theorem mkFrame_length (b2 b3 : Nat) (payload : List Nat) :
    (mkFrame b2 b3 payload).length = HDR_SIZE + payload.length := by
  simp [mkFrame, mkHeader_length]

theorem mkFrame_take_header (b2 b3 : Nat) (payload : List Nat) :
    (mkFrame b2 b3 payload).take HDR_SIZE = mkHeader b2 b3 payload := by
  rw [mkFrame, ← mkHeader_length b2 b3 payload, List.take_left]

theorem mkFrame_drop_header (b2 b3 : Nat) (payload : List Nat) :
    (mkFrame b2 b3 payload).drop HDR_SIZE = payload := by
  rw [mkFrame, ← mkHeader_length b2 b3 payload, List.drop_left]

theorem mkFrame_bytes_lt {b2 b3 : Nat} {payload : List Nat}
    (hb2 : b2 < 256) (hb3 : b3 < 256) (hp : ∀ x ∈ payload, x < 256) :
    ∀ x ∈ mkFrame b2 b3 payload, x < 256 := by
  intro x hx
  have h1 := checksum_lt payload
  have h2 := checksum_lt [0xA5, HDR_SIZE, b2, b3, payload.length % 256,
    payload.length / 256 % 256, checksum payload % 256, checksum payload / 256]
  simp only [mkFrame, List.mem_append] at hx
  rcases hx with h | h
  · simp only [mkHeader, List.mem_append, List.mem_cons, List.not_mem_nil, or_false] at h
    rcases h with (h | h | h | h | h | h | h | h) | (h | h) <;> subst h <;>
      first | omega | (simp only [HDR_SIZE]; omega)
  · exact hp x h

/-- Decoder configuration after `k` bytes of the frame have been
consumed, `1 ≤ k < frame length` (and, for `k = 0`, right after the sync
byte has been recognised): the cache holds the first `k` frame bytes, and
the state is `CacheHeader` until the full header is cached, `CacheData`
afterwards. -/
def frameSt (b2 b3 : Nat) (payload : List Nat) (k : Nat) : DecSt :=
  ⟨if k < HDR_SIZE then .cacheHdr else .cacheData, (mkFrame b2 b3 payload).take k⟩

theorem getD_take_lt {l : List Nat} {k i : Nat} (h : i < k) :
    (l.take k).getD i 0 = l.getD i 0 := by
  simp [List.getD_eq_getElem?_getD, List.getElem?_take_of_lt h]

theorem getD_append_left {l l' : List Nat} {i : Nat} (h : i < l.length) :
    (l ++ l').getD i 0 = l.getD i 0 := by
  simp [List.getD_eq_getElem?_getD, List.getElem?_append_left h]

/-- The header built by `mkHeader` passes all of the decoder's header
validations and declares the payload's length and checksum. -/
theorem mkHeader_valid (b2 b3 : Nat) (payload : List Nat) (hd2 : payload.length < 65536) :
    (mkHeader b2 b3 payload).getD 1 0 = HDR_SIZE
    ∧ word16 ((mkHeader b2 b3 payload).getD 8 0) ((mkHeader b2 b3 payload).getD 9 0)
        = checksum ((mkHeader b2 b3 payload).take (HDR_SIZE - 2))
    ∧ word16 ((mkHeader b2 b3 payload).getD 4 0) ((mkHeader b2 b3 payload).getD 5 0)
        = payload.length
    ∧ word16 ((mkHeader b2 b3 payload).getD 6 0) ((mkHeader b2 b3 payload).getD 7 0)
        = checksum payload := by
  have h1 := checksum_lt payload
  have h2 := checksum_lt [0xA5, 10, b2, b3, payload.length % 256,
    payload.length / 256 % 256, checksum payload % 256, checksum payload / 256]
  refine ⟨?_, ?_, ?_, ?_⟩ <;>
    simp only [mkHeader, word16_eq_add, List.cons_append, List.nil_append,
      List.getD_eq_getElem?_getD, List.getElem?_cons_zero, List.getElem?_cons_succ,
      Option.getD_some, HDR_SIZE, List.take_succ_cons, List.take_zero] <;>
    omega

theorem readLoop_nil (s : DecSt) : readLoop s [] = (s, []) := by
  rw [readLoop_eq]
  simp

/-- Feeding any `n ≥ 1` further bytes of a well-formed frame to the
decoder advances the cached prefix by `n` bytes; when the last frame byte
arrives, the frame is emitted once and the state returns to `SeekHeader`
with the whole frame still cached. -/
theorem frameAdvance (b2 b3 : Nat) (payload : List Nat)
    (hb2 : b2 < 256) (hb3 : b3 < 256) (hp : ∀ x ∈ payload, x < 256)
    (hd1 : 1 ≤ payload.length) (hd2 : payload.length < 65536) :
    ∀ n, 1 ≤ n → ∀ k, k + n ≤ HDR_SIZE + payload.length →
      readLoop (frameSt b2 b3 payload k) (((mkFrame b2 b3 payload).drop k).take n)
        = if k + n < HDR_SIZE + payload.length
            then (frameSt b2 b3 payload (k + n), [])
            else (⟨.seekHdr, mkFrame b2 b3 payload⟩, [mkFrame b2 b3 payload]) := by
  have hFlen : (mkFrame b2 b3 payload).length = HDR_SIZE + payload.length := mkFrame_length ..
  have hFbytes : ∀ x ∈ mkFrame b2 b3 payload, x < 256 := mkFrame_bytes_lt hb2 hb3 hp
  have h10 : HDR_SIZE = 10 := rfl
  intro n
  induction n using Nat.strong_induction_on with
  | _ n ih =>
    intro hn k hkn
    have hbl : (((mkFrame b2 b3 payload).drop k).take n).length = n := by
      simp only [List.length_take, List.length_drop, hFlen]
      omega
    have hbne : ((mkFrame b2 b3 payload).drop k).take n ≠ [] := by
      intro hcon
      rw [hcon] at hbl
      simp at hbl
      omega
    have hbne' : ¬ ((((mkFrame b2 b3 payload).drop k).take n).isEmpty = true) := by
      simpa [List.isEmpty_iff] using hbne
    have hLtake : ∀ j, j ≤ HDR_SIZE + payload.length →
        ((mkFrame b2 b3 payload).take j).length = j := by
      intro j hj
      simp only [List.length_take, hFlen]
      omega
    -- generic pieces used by every branch, parameterised by the copy length m
    have hcopy : ∀ m, m ≤ n →
        (mkFrame b2 b3 payload).take k
            ++ (((((mkFrame b2 b3 payload).drop k).take n).take m).map (· % 256))
          = (mkFrame b2 b3 payload).take (k + m) := by
      intro m hm
      rw [List.take_take, Nat.min_eq_left hm,
        mapMod_id (fun x hx =>
          hFbytes x (List.mem_of_mem_drop (List.mem_of_mem_take hx))),
        ← List.take_add]
    have hrest : ∀ m,
        ((((mkFrame b2 b3 payload).drop k).take n).drop m)
          = ((mkFrame b2 b3 payload).drop (k + m)).take (n - m) := by
      intro m
      rw [List.drop_take, List.drop_drop]
    -- the continuation after one iteration that leaves the decoder inside
    -- the frame at position k + m
    have hcont : ∀ m st', 1 ≤ m → m ≤ n → k + m ≤ HDR_SIZE + payload.length →
        st' = frameSt b2 b3 payload (k + m) →
        (k + m = HDR_SIZE + payload.length → False) →
        ((readLoop st' (((mkFrame b2 b3 payload).drop (k + m)).take (n - m))).1,
          ([] : List (List Nat))
            ++ (readLoop st' (((mkFrame b2 b3 payload).drop (k + m)).take (n - m))).2)
          = if k + n < HDR_SIZE + payload.length
              then (frameSt b2 b3 payload (k + n), [])
              else (⟨.seekHdr, mkFrame b2 b3 payload⟩, [mkFrame b2 b3 payload]) := by
      intro m st' hm1 hmn hkm hst' hne
      subst hst'
      rcases Nat.lt_or_ge m n with hlt | hge
      · have hsum : k + m + (n - m) = k + n := by omega
        rw [ih (n - m) (by omega) (by omega) (k + m) (by omega), hsum]
        split <;> simp
      · have hmn' : m = n := by omega
        have hklt : k + n < HDR_SIZE + payload.length := by
          rcases Nat.lt_or_ge (k + n) (HDR_SIZE + payload.length) with h | h
          · exact h
          · exact absurd (by omega) hne
        rw [hmn']
        have h0 : n - n = 0 := by omega
        rw [h0, List.take_zero, readLoop_nil, if_pos hklt]
        simp
    rcases Nat.lt_or_ge k HDR_SIZE with hk | hk
    · -- CacheHeader phase
      have hst : frameSt b2 b3 payload k = ⟨.cacheHdr, (mkFrame b2 b3 payload).take k⟩ := by
        simp [frameSt, if_pos hk]
      have hL : ((mkFrame b2 b3 payload).take k).length = k := hLtake k (by omega)
      have hss : sizeSub HDR_SIZE ((mkFrame b2 b3 payload).take k).length
          = HDR_SIZE - k := by
        rw [hL, sizeSub_of_le (by omega)]
      have hm1 : 1 ≤ min n (HDR_SIZE - k) := by omega
      have hmn : min n (HDR_SIZE - k) ≤ n := Nat.min_le_left ..
      have hkm10 : k + min n (HDR_SIZE - k) ≤ HDR_SIZE := by omega
      have hclen : ((mkFrame b2 b3 payload).take (k + min n (HDR_SIZE - k))).length
          = k + min n (HDR_SIZE - k) := hLtake _ (by omega)
      rw [readLoop_eq, if_neg hbne', hst]
      rcases Nat.lt_or_ge (k + min n (HDR_SIZE - k)) HDR_SIZE with hsplit | hsplit
      · -- header still incomplete: stay in CacheHeader
        have hcond : (((mkFrame b2 b3 payload).take (k + min n (HDR_SIZE - k))).length
            == HDR_SIZE) = false := by
          rw [hclen]
          exact beq_eq_false_iff_ne.mpr (Nat.ne_of_lt hsplit)
        have hiter : iter ⟨.cacheHdr, (mkFrame b2 b3 payload).take k⟩
              (((mkFrame b2 b3 payload).drop k).take n)
            = ⟨⟨.cacheHdr, (mkFrame b2 b3 payload).take (k + min n (HDR_SIZE - k))⟩, [],
                ((mkFrame b2 b3 payload).drop (k + min n (HDR_SIZE - k))).take
                  (n - min n (HDR_SIZE - k))⟩ := by
          simp only [iter, hbl, hss, hcopy _ hmn, hrest, hcond, Bool.false_eq_true, if_false]
        rw [hiter]
        exact hcont _ _ hm1 hmn (by omega) (by simp [frameSt, if_pos hsplit]) (by omega)
      · -- header completes now: validations pass, move to CacheData
        have hquo : k + min n (HDR_SIZE - k) = HDR_SIZE := by omega
        obtain ⟨hv1, hv2, hv3, hv4⟩ := mkHeader_valid b2 b3 payload hd2
        have htk : (mkFrame b2 b3 payload).take (k + min n (HDR_SIZE - k))
            = mkHeader b2 b3 payload := by
          rw [hquo, mkFrame_take_header]
        have hcond : ((mkHeader b2 b3 payload).length == HDR_SIZE) = true := by
          simp [mkHeader_length]
        have hiter : iter ⟨.cacheHdr, (mkFrame b2 b3 payload).take k⟩
              (((mkFrame b2 b3 payload).drop k).take n)
            = ⟨⟨.cacheData, mkHeader b2 b3 payload⟩, [],
                ((mkFrame b2 b3 payload).drop (k + min n (HDR_SIZE - k))).take
                  (n - min n (HDR_SIZE - k))⟩ := by
          simp only [iter, hbl, hss, hcopy _ hmn, hrest, htk, hcond, if_true, hv1, hv2,
            bne_self_eq_false, Bool.or_self, Bool.false_eq_true, if_false]
        rw [hiter]
        refine hcont _ _ hm1 hmn (by omega) ?_ (by omega)
        rw [frameSt, if_neg (by omega), hquo, mkFrame_take_header]
    · -- CacheData phase
      have hst : frameSt b2 b3 payload k = ⟨.cacheData, (mkFrame b2 b3 payload).take k⟩ := by
        simp [frameSt, if_neg (Nat.not_lt.mpr hk)]
      have hkF : k ≤ HDR_SIZE + payload.length := by omega
      have hL : ((mkFrame b2 b3 payload).take k).length = k := hLtake k hkF
      obtain ⟨hv1, hv2, hv3, hv4⟩ := mkHeader_valid b2 b3 payload hd2
      have hdl : word16 (((mkFrame b2 b3 payload).take k).getD 4 0)
          (((mkFrame b2 b3 payload).take k).getD 5 0) = payload.length := by
        rw [getD_take_lt (by omega), getD_take_lt (by omega), mkFrame,
          getD_append_left (by rw [mkHeader_length]; omega),
          getD_append_left (by rw [mkHeader_length]; omega)]
        exact hv3
      have hss : sizeSub (HDR_SIZE + word16 (((mkFrame b2 b3 payload).take k).getD 4 0)
            (((mkFrame b2 b3 payload).take k).getD 5 0))
            ((mkFrame b2 b3 payload).take k).length
          = HDR_SIZE + payload.length - k := by
        rw [hdl, hL, sizeSub_of_le hkF]
      have hm1 : 1 ≤ min n (HDR_SIZE + payload.length - k) := by omega
      have hmn : min n (HDR_SIZE + payload.length - k) ≤ n := Nat.min_le_left ..
      have hkmF : k + min n (HDR_SIZE + payload.length - k) ≤ HDR_SIZE + payload.length := by
        omega
      have hclen : ((mkFrame b2 b3 payload).take
            (k + min n (HDR_SIZE + payload.length - k))).length
          = k + min n (HDR_SIZE + payload.length - k) := hLtake _ hkmF
      rw [readLoop_eq, if_neg hbne', hst]
      rcases Nat.lt_or_ge (k + min n (HDR_SIZE + payload.length - k))
          (HDR_SIZE + payload.length) with hsplit | hsplit
      · -- payload still incomplete: stay in CacheData
        have hcond : (((mkFrame b2 b3 payload).take
              (k + min n (HDR_SIZE + payload.length - k))).length
            == HDR_SIZE + word16 (((mkFrame b2 b3 payload).take k).getD 4 0)
              (((mkFrame b2 b3 payload).take k).getD 5 0)) = false := by
          rw [hclen, hdl]
          exact beq_eq_false_iff_ne.mpr (Nat.ne_of_lt hsplit)
        have hiter : iter ⟨.cacheData, (mkFrame b2 b3 payload).take k⟩
              (((mkFrame b2 b3 payload).drop k).take n)
            = ⟨⟨.cacheData, (mkFrame b2 b3 payload).take
                  (k + min n (HDR_SIZE + payload.length - k))⟩, [],
                ((mkFrame b2 b3 payload).drop
                    (k + min n (HDR_SIZE + payload.length - k))).take
                  (n - min n (HDR_SIZE + payload.length - k))⟩ := by
          simp only [iter, hbl, hss, hcopy _ hmn, hrest, hcond, Bool.false_eq_true, if_false]
        rw [hiter]
        exact hcont _ _ hm1 hmn hkmF (by rw [frameSt, if_neg (by omega)]) (by omega)
      · -- last payload byte arrives: checksum passes, emit, back to SeekHeader
        have hquo : k + min n (HDR_SIZE + payload.length - k)
            = HDR_SIZE + payload.length := by omega
        have htk : (mkFrame b2 b3 payload).take
              (k + min n (HDR_SIZE + payload.length - k))
            = mkFrame b2 b3 payload := by
          rw [hquo, ← hFlen, List.take_length]
        have hcond : ((mkFrame b2 b3 payload).length
            == HDR_SIZE + word16 (((mkFrame b2 b3 payload).take k).getD 4 0)
              (((mkFrame b2 b3 payload).take k).getD 5 0)) = true := by
          rw [hFlen, hdl]
          exact beq_self_eq_true ..
        have hps : word16 ((mkFrame b2 b3 payload).getD 6 0)
            ((mkFrame b2 b3 payload).getD 7 0) = checksum payload := by
          rw [mkFrame, getD_append_left (by rw [mkHeader_length]; omega),
            getD_append_left (by rw [mkHeader_length]; omega)]
          exact hv4
        have hiter : iter ⟨.cacheData, (mkFrame b2 b3 payload).take k⟩
              (((mkFrame b2 b3 payload).drop k).take n)
            = ⟨⟨.seekHdr, mkFrame b2 b3 payload⟩, [mkFrame b2 b3 payload],
                ((mkFrame b2 b3 payload).drop
                    (k + min n (HDR_SIZE + payload.length - k))).take
                  (n - min n (HDR_SIZE + payload.length - k))⟩ := by
          simp only [iter, hbl, hss, hcopy _ hmn, hrest, htk, hcond, if_true, hps,
            mkFrame_drop_header, bne_self_eq_false, Bool.false_eq_true, if_false]
        have hnm : n = min n (HDR_SIZE + payload.length - k) := by omega
        rw [hiter, ← hnm, if_neg (by omega : ¬ k + n < HDR_SIZE + payload.length)]
        simp [readLoop_nil, Nat.sub_self]

/-- Processing the remaining frame bytes delivered as any sequence of
non-empty chunks, starting `k` bytes into the frame: exactly one frame is
emitted and the decoder finishes back in `SeekHeader`. -/
theorem frameChunks (b2 b3 : Nat) (payload : List Nat)
    (hb2 : b2 < 256) (hb3 : b3 < 256) (hp : ∀ x ∈ payload, x < 256)
    (hd1 : 1 ≤ payload.length) (hd2 : payload.length < 65536) :
    ∀ (cs : List (List Nat)) (k : Nat), (∀ c ∈ cs, c ≠ []) →
      k < HDR_SIZE + payload.length →
      cs.flatten = (mkFrame b2 b3 payload).drop k →
      runChunksD (frameSt b2 b3 payload k) cs
        = (⟨.seekHdr, mkFrame b2 b3 payload⟩, [mkFrame b2 b3 payload]) := by
  have hFlen : (mkFrame b2 b3 payload).length = HDR_SIZE + payload.length := mkFrame_length ..
  intro cs
  induction cs with
  | nil =>
    intro k hne hk hflat
    exfalso
    have := congrArg List.length hflat
    simp only [List.flatten_nil, List.length_nil, List.length_drop, hFlen] at this
    omega
  | cons c cs' ih =>
    intro k hne hk hflat
    have hc : c ≠ [] := hne c (by simp)
    have hcl : 1 ≤ c.length := List.length_pos.mpr hc
    have hlen : c.length + cs'.flatten.length = HDR_SIZE + payload.length - k := by
      have := congrArg List.length hflat
      simpa [List.length_drop, hFlen] using this
    have hflat' : c ++ cs'.flatten = (mkFrame b2 b3 payload).drop k := by
      simpa using hflat
    have hcform : ((mkFrame b2 b3 payload).drop k).take c.length = c := by
      rw [← hflat', List.take_left]
    have hrest : cs'.flatten = (mkFrame b2 b3 payload).drop (k + c.length) := by
      have h1 : ((mkFrame b2 b3 payload).drop k).drop c.length = cs'.flatten := by
        rw [← hflat', List.drop_left]
      rw [← h1, List.drop_drop]
    have hbound : k + c.length ≤ HDR_SIZE + payload.length := by omega
    have hstep := frameAdvance b2 b3 payload hb2 hb3 hp hd1 hd2 c.length hcl k hbound
    rw [hcform] at hstep
    simp only [runChunksD]
    rcases Nat.lt_or_ge (k + c.length) (HDR_SIZE + payload.length) with hsp | hsp
    · rw [hstep, if_pos hsp]
      have := ih (k + c.length) (fun x hx => hne x (List.mem_cons_of_mem c hx)) hsp hrest
      simp [this]
    · have heq : k + c.length = HDR_SIZE + payload.length := by omega
      rw [hstep, if_neg (by omega)]
      have hnil : cs' = [] := by
        have hfl : cs'.flatten = [] := by
          rw [hrest, heq, ← hFlen, List.drop_length]
        rcases cs' with - | ⟨x, xs⟩
        · rfl
        · exfalso
          have hx : x = [] := (List.flatten_eq_nil_iff.mp hfl) x (by simp)
          exact hne x (by simp) hx
      subst hnil
      simp [runChunksD]

/-- **C2 (amended: the payload must be non-empty).** Starting in
`SeekHeader`, an input stream that delivers a well-formed frame — sync
byte `0xA5`, header byte 1 equal to 10, correct little-endian header and
payload checksums, and a *non-empty* declared payload — produces exactly
one emitted frame, whose bytes (and in particular payload bytes) equal
the input bytes, however the stream is split into non-empty reads, and
the decoder state returns to `SeekHeader`. (For a zero-length payload the
code instead stalls in `CacheData`; see the counterexample.) -/
theorem C2_wellformed_frame_decoded_once (b2 b3 : Nat) (payload cache0 : List Nat)
    (cs : List (List Nat)) (hb2 : b2 < 256) (hb3 : b3 < 256)
    (hp : ∀ x ∈ payload, x < 256) (hd1 : 1 ≤ payload.length)
    (hd2 : payload.length < 65536)
    (hcs : ∀ c ∈ cs, c ≠ []) (hflat : cs.flatten = mkFrame b2 b3 payload) :
    runChunksD ⟨.seekHdr, cache0⟩ cs
      = (⟨.seekHdr, mkFrame b2 b3 payload⟩, [mkFrame b2 b3 payload]) := by
  have hFlen : (mkFrame b2 b3 payload).length = HDR_SIZE + payload.length := mkFrame_length ..
  rcases cs with - | ⟨c, cs'⟩
  · exfalso
    have := congrArg List.length hflat
    simp only [List.flatten_nil, List.length_nil, hFlen, HDR_SIZE] at this
    omega
  · have hc : c ≠ [] := hcs c (by simp)
    obtain ⟨c0, ct, rfl⟩ : ∃ c0 ct, c = c0 :: ct := by
      rcases c with - | ⟨c0, ct⟩
      · exact absurd rfl hc
      · exact ⟨c0, ct, rfl⟩
    have hc0 : c0 = 0xA5 := by
      have h := congrArg List.head? hflat
      simpa [mkFrame, mkHeader] using h
    subst hc0
    have hswitch : readLoop ⟨.seekHdr, cache0⟩ (0xA5 :: ct)
        = readLoop ⟨.cacheHdr, []⟩ (0xA5 :: ct) := by
      rw [readLoop_eq ⟨.seekHdr, cache0⟩]
      have hdw : (0xA5 :: ct).dropWhile (fun b => b % 256 != 0xA5) = 0xA5 :: ct :=
        List.dropWhile_cons_of_neg (by decide)
      simp [iter, hdw]
    have hst0 : frameSt b2 b3 payload 0 = ⟨.cacheHdr, []⟩ := by
      simp [frameSt, HDR_SIZE]
    have := frameChunks b2 b3 payload hb2 hb3 hp hd1 hd2 ((0xA5 :: ct) :: cs') 0
      hcs (by omega) (by simpa using hflat)
    rw [hst0] at this
    simp only [runChunksD, hswitch] at *
    exact this

/-- Counterexample to C2 as frozen: a well-formed frame with declared
payload length 0 (all checksums correct), delivered as one read, is never
emitted — the decoder consumes all ten bytes and is left waiting in
`CacheData`, not back in `SeekHeader`. -/
theorem C2_counterexample :
    (runChunksD ⟨.seekHdr, []⟩ [mkFrame 0 0 []]).2 = []
    ∧ (runChunksD ⟨.seekHdr, []⟩ [mkFrame 0 0 []]).1.state = MState.cacheData := by
  constructor <;> decide

/-- Witness for the amended C2 at a concrete frame with a 1-byte payload. -/
theorem C2_witness :
    runChunksD ⟨.seekHdr, []⟩ [mkFrame 0 0 [0x11]]
      = (⟨.seekHdr, mkFrame 0 0 [0x11]⟩, [mkFrame 0 0 [0x11]]) :=
  C2_wellformed_frame_decoded_once 0 0 [0x11] [] [mkFrame 0 0 [0x11]]
    (by decide) (by decide) (by decide) (by decide) (by decide)
    (by decide) (by simp)

/-! ## Corruption and resynchronization (C3) -/

/-- Flipping byte `j` changes the 16-bit word sum by the byte difference
in either the low or the high byte lane. -/
theorem specWords_set :
    ∀ (l : List Nat) (j v : Nat), j < l.length → v < 256 → (∀ x ∈ l, x < 256) →
      (specWords (l.set j v)).sum + l.getD j 0 = (specWords l).sum + v
      ∨ (specWords (l.set j v)).sum + 256 * l.getD j 0 = (specWords l).sum + 256 * v
  | [], j, v, hj, _, _ => by simp at hj
  | [a], 0, v, _, hv, hb => by
    right
    have ha : a < 256 := hb a (by simp)
    simp only [List.set, specWords, List.sum_cons, List.sum_nil, List.getD_cons_zero]
    rw [Nat.mod_eq_of_lt hv, Nat.mod_eq_of_lt ha]
    omega
  | [a], j + 1, v, hj, _, _ => by simp at hj
  | a :: b :: rest, 0, v, _, hv, hb => by
    left
    have ha : a < 256 := hb a (by simp)
    simp only [List.set, specWords, List.sum_cons, List.getD_cons_zero]
    rw [Nat.mod_eq_of_lt hv, Nat.mod_eq_of_lt ha]
    omega
  | a :: b :: rest, 1, v, _, hv, hb => by
    right
    have hbb : b < 256 := hb b (by simp)
    simp only [List.set, specWords, List.sum_cons, List.getD_cons_succ, List.getD_cons_zero]
    rw [Nat.mod_eq_of_lt hv, Nat.mod_eq_of_lt hbb]
    omega
  | a :: b :: rest, j + 2, v, hj, hv, hb => by
    have hj' : j < rest.length := by simpa using hj
    have hrec := specWords_set rest j v hj' hv
      (fun x hx => hb x (by simp [hx]))
    simp only [List.set, specWords, List.sum_cons, List.getD_cons_succ]
    omega

/-- Flipping one byte of the range always changes the checksum. -/
theorem checksum_set_ne {l : List Nat} {j v : Nat}
    (hj : j < l.length) (hv : v < 256) (hb : ∀ x ∈ l, x < 256)
    (hne : v ≠ l.getD j 0) :
    checksum (l.set j v) ≠ checksum l := by
  intro hEq
  rw [checksum_matches_spec.1, checksum_matches_spec.1, checksumSpec, checksumSpec] at hEq
  have ha : l.getD j 0 < 256 := by
    have : l.getD j 0 ∈ l := by
      rw [List.getD_eq_getElem?_getD, List.getElem?_eq_getElem hj, Option.getD_some]
      exact List.getElem_mem hj
    exact hb _ this
  rcases specWords_set l j v hj hv hb with h | h <;> omega

theorem seekAux_some_spec :
    ∀ (l : List Nat) (s i : Nat), seekAux l s = some i →
      s ≤ i ∧ i - s < l.length ∧ l.getD (i - s) 0 % 256 = 0xA5
      ∧ ∀ t, t < i - s → l.getD t 0 % 256 ≠ 0xA5
  | [], _, _, h => by simp [seekAux] at h
  | b :: rest, s, i, h => by
    rw [seekAux] at h
    split at h
    · rename_i hfound
      obtain rfl : s = i := by simpa using h
      refine ⟨Nat.le_refl _, by simp, ?_, by omega⟩
      simp only [Nat.sub_self, List.getD_cons_zero]
      simpa using hfound
    · rename_i hnot
      obtain ⟨h1, h2, h3, h4⟩ := seekAux_some_spec rest (s + 1) i h
      have hb : (b % 256 == 0xA5) = false := by
        simpa using hnot
      refine ⟨by omega, by simp only [List.length_cons]; omega, ?_, ?_⟩
      · have hi : i - s = (i - (s + 1)) + 1 := by omega
        rw [hi, List.getD_cons_succ]
        exact h3
      · intro t ht
        rcases t with - | t'
        · simp only [List.getD_cons_zero]
          simpa using hb
        · rw [List.getD_cons_succ]
          exact h4 t' (by omega)

theorem seekAux_none_spec :
    ∀ (l : List Nat) (s : Nat), seekAux l s = none →
      ∀ t, t < l.length → l.getD t 0 % 256 ≠ 0xA5
  | [], _, _ => by simp
  | b :: rest, s, h => by
    rw [seekAux] at h
    split at h
    · simp at h
    · rename_i hnot
      intro t ht
      rcases t with - | t'
      · simp only [List.getD_cons_zero]
        simpa using hnot
      · rw [List.getD_cons_succ]
        exact seekAux_none_spec rest (s + 1) h t' (by simpa using ht)

theorem resyncIndex_some_spec {cache : List Nat} {i : Nat}
    (h : resyncIndex cache = some i) :
    1 ≤ i ∧ i < cache.length ∧ cache.getD i 0 % 256 = 0xA5
    ∧ ∀ j, 1 ≤ j → j < i → cache.getD j 0 % 256 ≠ 0xA5 := by
  rcases cache with - | ⟨c0, rest⟩
  · simp [resyncIndex, seekAux] at h
  · have hs := seekAux_some_spec rest 1 i h
    obtain ⟨h1, h2, h3, h4⟩ := hs
    refine ⟨h1, by simp only [List.length_cons]; omega, ?_, ?_⟩
    · obtain ⟨i', rfl⟩ : ∃ i', i = i' + 1 := ⟨i - 1, by omega⟩
      rw [List.getD_cons_succ]
      simpa using h3
    · intro j hj1 hji
      obtain ⟨j', rfl⟩ : ∃ j', j = j' + 1 := ⟨j - 1, by omega⟩
      rw [List.getD_cons_succ]
      exact h4 j' (by omega)

theorem resyncIndex_none_spec {cache : List Nat}
    (h : resyncIndex cache = none) :
    ∀ j, 1 ≤ j → j < cache.length → cache.getD j 0 % 256 ≠ 0xA5 := by
  intro j hj1 hjl
  rcases cache with - | ⟨c0, rest⟩
  · simp at hjl
  · obtain ⟨j', rfl⟩ : ∃ j', j = j' + 1 := ⟨j - 1, by omega⟩
    rw [List.getD_cons_succ]
    exact seekAux_none_spec rest 1 h j' (by simpa using hjl)

/-- In `SeekHeader`, a read whose first byte is the sync byte switches to
`CacheHeader` with an empty cache, consuming nothing: the stale cache is
dropped. -/
theorem readLoop_seekHdr_sync (cache0 t : List Nat) :
    readLoop ⟨.seekHdr, cache0⟩ (0xA5 :: t) = readLoop ⟨.cacheHdr, []⟩ (0xA5 :: t) := by
  rw [readLoop_eq ⟨.seekHdr, cache0⟩]
  have hdw : (0xA5 :: t).dropWhile (fun b => b % 256 != 0xA5) = 0xA5 :: t :=
    List.dropWhile_cons_of_neg (by decide)
  simp [iter, hdw]

theorem runChunksD_singleton (s : DecSt) (c : List Nat) :
    runChunksD s [c] = readLoop s c := by
  simp [runChunksD]

theorem readLoop_step {s : DecSt} {buf : List Nat} {o : IterOut}
    (h : iter s buf = o) (hne : buf ≠ []) :
    readLoop s buf = ((readLoop o.st o.rest).1, o.frames ++ (readLoop o.st o.rest).2) := by
  rw [readLoop_eq, if_neg (by simpa [List.isEmpty_iff] using hne), h]

/-- From an empty cache, a read starting with a well-formed header caches
and validates the whole header in one iteration and moves to `CacheData`. -/
theorem iter_header_ok (b2 b3 : Nat) (payload q : List Nat)
    (hb2 : b2 < 256) (hb3 : b3 < 256) (hp : ∀ x ∈ payload, x < 256)
    (hd2 : payload.length < 65536) :
    iter ⟨.cacheHdr, []⟩ (mkHeader b2 b3 payload ++ q)
      = ⟨⟨.cacheData, mkHeader b2 b3 payload⟩, [], q⟩ := by
  obtain ⟨hv1, hv2, hv3, hv4⟩ := mkHeader_valid b2 b3 payload hd2
  have hHb : ∀ x ∈ mkHeader b2 b3 payload, x < 256 := fun x hx =>
    mkFrame_bytes_lt hb2 hb3 hp x (List.mem_append_left _ hx)
  have hlen : (mkHeader b2 b3 payload ++ q).length = HDR_SIZE + q.length := by
    simp [mkHeader_length]
  have hss : sizeSub HDR_SIZE 0 = HDR_SIZE := by
    rw [sizeSub_of_le (Nat.zero_le _)]
    omega
  have hmin : min (HDR_SIZE + q.length) HDR_SIZE = HDR_SIZE := by omega
  have htake : (mkHeader b2 b3 payload ++ q).take HDR_SIZE = mkHeader b2 b3 payload :=
    List.take_left' (mkHeader_length ..)
  have hdrop : (mkHeader b2 b3 payload ++ q).drop HDR_SIZE = q :=
    List.drop_left' (mkHeader_length ..)
  have hbeq : ((mkHeader b2 b3 payload).length == HDR_SIZE) = true := by
    simp [mkHeader_length]
  simp only [iter, List.length_nil, hss, hlen, hmin, htake, hdrop, mapMod_id hHb,
    List.nil_append, hbeq, if_true, hv1, hv2, bne_self_eq_false, Bool.or_self,
    Bool.false_eq_true, if_false]

/-- With the header cached and a payload of the declared length arriving
whose checksum does not match the header's payload-checksum field, the
decoder emits nothing and enters `SeekCachedHeader`, the corrupt bytes
still cached. -/
theorem iter_payload_bad (b2 b3 : Nat) (payload q : List Nat)
    (hd2 : payload.length < 65536)
    (hqlen : q.length = payload.length) (hqb : ∀ x ∈ q, x < 256)
    (hqcs : checksum q ≠ checksum payload) :
    iter ⟨.cacheData, mkHeader b2 b3 payload⟩ q
      = ⟨⟨.seekCachedHdr, mkHeader b2 b3 payload ++ q⟩, [], []⟩ := by
  obtain ⟨hv1, hv2, hv3, hv4⟩ := mkHeader_valid b2 b3 payload hd2
  have hL : (mkHeader b2 b3 payload).length = HDR_SIZE := mkHeader_length ..
  have hss : sizeSub (HDR_SIZE + word16 ((mkHeader b2 b3 payload).getD 4 0)
        ((mkHeader b2 b3 payload).getD 5 0)) (mkHeader b2 b3 payload).length
      = q.length := by
    rw [hv3, hL, sizeSub_of_le (by omega), hqlen]
    omega
  have hmin : min q.length q.length = q.length := by omega
  have htake : q.take q.length = q := List.take_length ..
  have hdrop : q.drop q.length = [] := List.drop_length ..
  have hbeq : ((mkHeader b2 b3 payload ++ q).length
      == HDR_SIZE + word16 ((mkHeader b2 b3 payload).getD 4 0)
        ((mkHeader b2 b3 payload).getD 5 0)) = true := by
    rw [beq_iff_eq, hv3, List.length_append, hL, hqlen]
  have hps : word16 ((mkHeader b2 b3 payload ++ q).getD 6 0)
      ((mkHeader b2 b3 payload ++ q).getD 7 0) = checksum payload := by
    rw [getD_append_left (by rw [hL]; decide), getD_append_left (by rw [hL]; decide)]
    exact hv4
  have hdrop10 : (mkHeader b2 b3 payload ++ q).drop HDR_SIZE = q :=
    List.drop_left' hL
  have hbad : (word16 ((mkHeader b2 b3 payload ++ q).getD 6 0)
      ((mkHeader b2 b3 payload ++ q).getD 7 0)
      != checksum ((mkHeader b2 b3 payload ++ q).drop HDR_SIZE)) = true := by
    rw [hps, hdrop10]
    exact bne_iff_ne.mpr (fun hcon => hqcs hcon.symm)
  simp only [iter, hss, hmin, htake, hdrop, mapMod_id hqb, hbeq, if_true, hbad,
    Bool.true_eq_false, if_true]

/-- Feeding a frame whose payload has one flipped byte: zero emissions,
and the decoder ends in `SeekCachedHeader` with the corrupt frame cached. -/
theorem corruptFrame_rejected (b2 b3 : Nat) (payload cache0 : List Nat) (j v : Nat)
    (hb2 : b2 < 256) (hb3 : b3 < 256) (hp : ∀ x ∈ payload, x < 256)
    (hd1 : 1 ≤ payload.length) (hd2 : payload.length < 65536)
    (hj : j < payload.length) (hv : v < 256) (hvne : v ≠ payload.getD j 0) :
    runChunksD ⟨.seekHdr, cache0⟩ [mkHeader b2 b3 payload ++ payload.set j v]
      = (⟨.seekCachedHdr, mkHeader b2 b3 payload ++ payload.set j v⟩, []) := by
  have hqlen : (payload.set j v).length = payload.length := List.length_set ..
  have hqb : ∀ x ∈ payload.set j v, x < 256 := fun x hx =>
    (List.mem_or_eq_of_mem_set hx).elim (hp x) (fun h => h ▸ hv)
  have hqcs : checksum (payload.set j v) ≠ checksum payload :=
    checksum_set_ne hj hv hp hvne
  have hqne : payload.set j v ≠ [] := by
    intro hcon
    rw [hcon] at hqlen
    simp at hqlen
    omega
  obtain ⟨r, hr⟩ : ∃ r, mkHeader b2 b3 payload ++ payload.set j v = 0xA5 :: r :=
    ⟨_, rfl⟩
  rw [runChunksD_singleton, hr, readLoop_seekHdr_sync, ← hr,
    readLoop_step (iter_header_ok b2 b3 payload (payload.set j v) hb2 hb3 hp hd2)
      (by rw [hr]; simp),
    readLoop_step (iter_payload_bad b2 b3 payload (payload.set j v) hd2 hqlen hqb hqcs)
      hqne,
    readLoop_nil]
  simp

/-- **C3.** After a header or payload checksum mismatch the decoder emits
no frame and enters `SeekCachedHeader`; that state searches only the
already-cached bytes, starting at offset 1, for the sync byte `0xA5`:
if the first occurrence is at offset `i`, the cache is shifted left by
`i` bytes keeping the remaining `cached_len - i` bytes and the decoder
re-enters `CacheHeader`, consuming no transport input; if no alternate
sync byte exists anywhere in the cache, the decoder returns to
`SeekHeader` (again consuming nothing), and the stale cache is discarded
when the next sync byte is found. -/
theorem C3_mismatch_resync
    (b2 b3 j v i : Nat) (payload cache0 cache2 cache3 hdr10 buf2 buf3 buf4 t : List Nat)
    (hb2 : b2 < 256) (hb3 : b3 < 256) (hp : ∀ x ∈ payload, x < 256)
    (hd1 : 1 ≤ payload.length) (hd2 : payload.length < 65536)
    (hj : j < payload.length) (hv : v < 256) (hvne : v ≠ payload.getD j 0)
    (hsome : resyncIndex cache2 = some i)
    (hnone : resyncIndex cache3 = none) (hc3 : 1 ≤ cache3.length)
    (hh10 : hdr10.length = HDR_SIZE)
    (hhbad : hdr10.getD 1 0 ≠ HDR_SIZE
      ∨ word16 (hdr10.getD 8 0) (hdr10.getD 9 0) ≠ checksum (hdr10.take (HDR_SIZE - 2))) :
    runChunksD ⟨.seekHdr, cache0⟩ [mkHeader b2 b3 payload ++ payload.set j v]
        = (⟨.seekCachedHdr, mkHeader b2 b3 payload ++ payload.set j v⟩, [])
    ∧ iter ⟨.cacheHdr, hdr10⟩ buf4 = ⟨⟨.seekCachedHdr, hdr10⟩, [], buf4⟩
    ∧ (iter ⟨.seekCachedHdr, cache2⟩ buf2 = ⟨⟨.cacheHdr, cache2.drop i⟩, [], buf2⟩
        ∧ 1 ≤ i ∧ i < cache2.length ∧ (cache2.drop i).length = cache2.length - i
        ∧ cache2.getD i 0 % 256 = 0xA5
        ∧ ∀ j', 1 ≤ j' → j' < i → cache2.getD j' 0 % 256 ≠ 0xA5)
    ∧ (iter ⟨.seekCachedHdr, cache3⟩ buf3 = ⟨⟨.seekHdr, cache3⟩, [], buf3⟩
        ∧ ∀ j', 1 ≤ j' → j' < cache3.length → cache3.getD j' 0 % 256 ≠ 0xA5)
    ∧ iter ⟨.seekHdr, cache3⟩ (0xA5 :: t) = ⟨⟨.cacheHdr, []⟩, [], 0xA5 :: t⟩ := by
  refine ⟨corruptFrame_rejected b2 b3 payload cache0 j v hb2 hb3 hp hd1 hd2 hj hv hvne,
    ?_, ⟨?_, ?_⟩, ⟨?_, resyncIndex_none_spec hnone⟩, ?_⟩
  · -- full cached header failing validation
    have hss : sizeSub HDR_SIZE hdr10.length = 0 := by
      rw [hh10, sizeSub_of_le (Nat.le_refl _)]
      omega
    have hbeq : (hdr10.length == HDR_SIZE) = true := by
      rw [beq_iff_eq]
      exact hh10
    have hbad : (hdr10.getD 1 0 != HDR_SIZE
        || word16 (hdr10.getD 8 0) (hdr10.getD 9 0)
            != checksum (hdr10.take (HDR_SIZE - 2))) = true := by
      rcases hhbad with h | h
      · rw [bne_iff_ne.mpr h, Bool.true_or]
      · rw [bne_iff_ne.mpr h, Bool.or_true]
    simp only [iter, hss, Nat.min_zero, List.take_zero, List.map_nil, List.append_nil,
      List.drop_zero, hbeq, if_true, hbad, Bool.true_eq_false, if_true]
  · simp only [iter, hsome]
  · obtain ⟨h1, h2, h3, h4⟩ := resyncIndex_some_spec hsome
    exact ⟨h1, h2, List.length_drop .., h3, h4⟩
  · have hz : (cache3.length == 0) = false := by
      rw [beq_eq_false_iff_ne]
      omega
    simp only [iter, hnone, hz, Bool.false_eq_true, if_false]
  · have hdw : (0xA5 :: t).dropWhile (fun b => b % 256 != 0xA5) = 0xA5 :: t :=
      List.dropWhile_cons_of_neg (by decide)
    simp [iter, hdw]

/-- Witness for C3 at concrete inputs: a one-byte payload flipped from
`0x11` to `0x22`, a cache containing an alternate sync byte at offset 1,
a cache with no alternate sync byte, and a cached header whose declared
length byte is wrong. -/
theorem C3_witness :
    runChunksD ⟨.seekHdr, []⟩ [mkHeader 0 0 [0x11] ++ [0x11].set 0 0x22]
        = (⟨.seekCachedHdr, mkHeader 0 0 [0x11] ++ [0x11].set 0 0x22⟩, [])
    ∧ iter ⟨.cacheHdr, [0xA5, 9, 0, 0, 0, 0, 0, 0, 0, 0]⟩ [0x55]
        = ⟨⟨.seekCachedHdr, [0xA5, 9, 0, 0, 0, 0, 0, 0, 0, 0]⟩, [], [0x55]⟩
    ∧ (iter ⟨.seekCachedHdr, [0x00, 0xA5, 0x07]⟩ [0x33]
          = ⟨⟨.cacheHdr, ([0x00, 0xA5, 0x07] : List Nat).drop 1⟩, [], [0x33]⟩
        ∧ 1 ≤ 1 ∧ 1 < ([0x00, 0xA5, 0x07] : List Nat).length
        ∧ (([0x00, 0xA5, 0x07] : List Nat).drop 1).length
            = ([0x00, 0xA5, 0x07] : List Nat).length - 1
        ∧ ([0x00, 0xA5, 0x07] : List Nat).getD 1 0 % 256 = 0xA5
        ∧ ∀ j', 1 ≤ j' → j' < 1 → ([0x00, 0xA5, 0x07] : List Nat).getD j' 0 % 256 ≠ 0xA5)
    ∧ (iter ⟨.seekCachedHdr, [0x01, 0x02]⟩ [0x44]
          = ⟨⟨.seekHdr, [0x01, 0x02]⟩, [], [0x44]⟩
        ∧ ∀ j', 1 ≤ j' → j' < ([0x01, 0x02] : List Nat).length
            → ([0x01, 0x02] : List Nat).getD j' 0 % 256 ≠ 0xA5)
    ∧ iter ⟨.seekHdr, [0x01, 0x02]⟩ (0xA5 :: [])
        = ⟨⟨.cacheHdr, []⟩, [], 0xA5 :: []⟩ :=
  C3_mismatch_resync 0 0 0 0x22 1 [0x11] [] [0x00, 0xA5, 0x07] [0x01, 0x02]
    [0xA5, 9, 0, 0, 0, 0, 0, 0, 0, 0] [0x33] [0x44] [0x55] []
    (by decide) (by decide) (by decide) (by decide) (by decide) (by decide) (by decide)
    (by decide) (by decide) (by decide) (by decide) (by decide) (by decide)

/-! ## The cache-length invariant is violated (C9) -/

/-- A frame whose header is fully valid (sync, declared length 10,
correct header checksum), whose type byte at offset 2 happens to be
`0xA5`, whose declared payload length is 4, and whose payload-checksum
field (zero) does not match the payload `[0,0,0,0]`. -/
def c9Frame : List Nat :=
  [0xA5, 0x0A, 0xA5, 0x00, 0x04, 0x00, 0x00, 0x00, 0xDA, 0xC0, 0x00, 0x00, 0x00, 0x00]

/-- The cache after the payload-checksum failure on `c9Frame`, the resync
to the `0xA5` at offset 2 (which keeps 12 > 10 bytes cached) and one more
input byte: 13 bytes, although the resynced header declares payload
length 0. -/
def c9Cache : List Nat := c9Frame.drop 2 ++ [0x00]

/-- Once more than `HDR_SIZE` bytes are cached in `CacheHeader`, the
`(size_t)HDR_SIZE - m_cached` bound underflows and every further read is
appended whole to the cache, which can never validate again. (In the C
code the `memcpy` eventually writes past `m_cache[4096]`.) -/
theorem readLoop_cacheHdr_overflow (c junk : List Nat)
    (hc : HDR_SIZE < c.length) (hbound : c.length + junk.length ≤ 2 ^ 64) :
    readLoop ⟨.cacheHdr, c⟩ junk = (⟨.cacheHdr, c ++ junk.map (· % 256)⟩, []) := by
  have h64 : (2 : Nat) ^ 64 = 18446744073709551616 := by norm_num
  rcases hj : junk with - | ⟨b, jrest⟩
  · rw [readLoop_nil]
    simp
  · rw [← hj]
    have hjne : junk ≠ [] := by rw [hj]; simp
    have hss : sizeSub HDR_SIZE c.length = 2 ^ 64 - (c.length - HDR_SIZE) := by
      rw [sizeSub, if_neg (by omega)]
      congr 1
      rw [Nat.mod_eq_of_lt (by simp only [HDR_SIZE] at *; omega)]
    have hmin : min junk.length (sizeSub HDR_SIZE c.length) = junk.length := by
      rw [hss]
      simp only [HDR_SIZE, h64] at *
      omega
    have hbeq : ((c ++ junk.map (· % 256)).length == HDR_SIZE) = false := by
      rw [beq_eq_false_iff_ne]
      simp only [List.length_append, List.length_map]
      omega
    have hiter : iter ⟨.cacheHdr, c⟩ junk
        = ⟨⟨.cacheHdr, c ++ junk.map (· % 256)⟩, [], []⟩ := by
      simp only [iter, hmin, List.take_length, List.drop_length, hbeq,
        Bool.false_eq_true, if_false]
    rw [readLoop_step hiter hjne, readLoop_nil]
    simp

/-- **C9 refuted: the code violates the cache invariant.** After a
payload-checksum failure on `c9Frame` and the resync to its interior sync
byte, 12 bytes remain cached while the (resynced) header declares a
payload length of 0; one further input byte leaves 13 bytes cached —
exceeding header length (10) plus declared payload length (0) — and from
then on every read of `n` bytes is appended whole, so the cache length
`13 + n` grows past any bound (in the C code, past the 4096-byte
`m_cache`, an out-of-bounds `memcpy`). -/
theorem C9_cache_overflow :
    (runChunksD ⟨.seekHdr, []⟩ [c9Frame, [0x00]]).1 = ⟨.cacheHdr, c9Cache⟩
    ∧ (runChunksD ⟨.seekHdr, []⟩ [c9Frame, [0x00]]).2 = []
    ∧ c9Cache.length = 13
    ∧ word16 (c9Cache.getD 4 0) (c9Cache.getD 5 0) = 0
    ∧ HDR_SIZE + word16 (c9Cache.getD 4 0) (c9Cache.getD 5 0) < c9Cache.length
    ∧ ∀ junk : List Nat, junk.length ≤ 4096 →
        readLoop ⟨.cacheHdr, c9Cache⟩ junk
          = (⟨.cacheHdr, c9Cache ++ junk.map (· % 256)⟩, []) := by
  refine ⟨by decide, by decide, by decide, by decide, by decide, ?_⟩
  intro junk hjunk
  exact readLoop_cacheHdr_overflow c9Cache junk (by decide)
    (by have h13 : c9Cache.length = 13 := by decide
        have h64 : (2 : Nat) ^ 64 = 18446744073709551616 := by norm_num
        rw [h13, h64]
        omega)

/-- Witness for C9's growth clause at a concrete further read. -/
theorem C9_witness :
    readLoop ⟨.cacheHdr, c9Cache⟩ [0x01, 0x02, 0x03]
      = (⟨.cacheHdr, c9Cache ++ [0x01, 0x02, 0x03].map (· % 256)⟩, []) :=
  C9_cache_overflow.2.2.2.2.2 [0x01, 0x02, 0x03] (by decide)

/-! ## The full Reader: handshake, configuration, run loop -/

/-- `Reader::NortekParam`. The numeric `double` fields are modelled by
their formatted decimal text (the code formats them with fixed-precision
`printf` conversions before writing; the claims concern which commands
are written, in which order, with the parameters as decimal text). -/
structure NortekParam where
  username : String
  password : String
  rate : String
  sndvel : String
  salinity : String
  bt_range : String
  v_range : String
  pwr_level : String
deriving DecidableEq, Repr

/-- `c_control_seq`: the wake/control escape sequence. -/
def c_control_seq : String := "K1W%!Q\r\n"

/-- `c_read_buffer_size`. -/
def c_read_buffer_size : Nat := 4096

/-- The state of a `Reader`: protocol state `m_state`, text-mode line
accumulator `m_line`, configuration step counter `m_conf_line` (a
`uint8_t`), binary frame cache `m_cache[0..m_cached)`, and the connection
parameters `m_param`. -/
structure Reader where
  state : MState
  line : List Nat
  confLine : Nat
  cache : List Nat
  param : NortekParam
deriving DecidableEq, Repr

/-- Observable effects of the reader: `writeString` calls on the
transport, `DevDataBinary` frame dispatches from `processFrame`, and the
single `IoEvent` dispatched by `run` on a fatal error. -/
inductive Event
  | write (s : String)
  | frame (bytes : List Nat)
  | ioError (msg : String)
deriving DecidableEq, Repr

/-- The byte values of an ASCII string. -/
def strBytes (s : String) : List Nat := s.toList.map Char.toNat

/-- `m_line.rfind(pat) != std::string::npos`: the pattern occurs
somewhere in the accumulated line. -/
def containsSub (pat l : List Nat) : Bool :=
  (List.range (l.length + 1)).any (fun i => pat.isPrefixOf (l.drop i))

/-- Result of one `Reader::read` call: either the new reader state plus
the writes/dispatches it performed, or a thrown `std::runtime_error`. -/
inductive ReadResult
  | ok (r : Reader) (evs : List Event)
  | err (msg : String) (evs : List Event)
deriving DecidableEq, Repr

/-- `Reader::reconfigure`: write the control sequence, force the state to
`MSTA_CONF`, replace the parameters, reset the step counter to 0. -/
def reconfigure (param : NortekParam) (r : Reader) : Reader × List Event :=
  ({r with state := .conf, param := param, confLine := 0}, [.write c_control_seq])

/-- `Reader::auth`: prompt matching over the accumulated line. Each match
clears the whole line (`m_line.clear()`). -/
def auth (r : Reader) : ReadResult :=
  if containsSub (strBytes "Username: ") r.line then
    .ok {r with line := []} [.write r.param.username, .write "\n"]
  else if containsSub (strBytes "Password: ") r.line then
    .ok {r with line := []} [.write r.param.password, .write "\n"]
  else if containsSub (strBytes "Command Interface\r\n") r.line then
    .ok {r with line := [], confLine := 0, state := .conf} [.write c_control_seq]
  else if containsSub (strBytes "Login failed") r.line then
    .err "Login failed" []
  else
    .ok r []

/-- The `SETDVL` command of `Reader::conf`, case 1. -/
def setdvlCmd (p : NortekParam) : String :=
  "SETDVL,2,\"OFF\",\"INTSR\"," ++ p.rate ++ ",\"\"," ++ p.sndvel ++ ","
    ++ p.salinity ++ "\r\n"

/-- The `SETBT` command of `Reader::conf`, case 2. -/
def setbtCmd (p : NortekParam) : String :=
  "SETBT," ++ p.bt_range ++ "," ++ p.v_range ++ ",4,0,21," ++ p.pwr_level ++ ",\"XYZ\"\r\n"

/-- The `SETCURPROF` command of `Reader::conf`, case 3. -/
def setcurprofCmd (p : NortekParam) : String :=
  "SETCURPROF,1,0.50,0.10,\"XYZ\"," ++ p.pwr_level ++ ",0.000," ++ p.v_range ++ ",3,4,0\r\n"

/-- `Reader::conf`: on "OK\r\n" clear the line and dispatch on
`m_conf_line++` (a `uint8_t`, hence the mod-256 increment); on
"ERROR\r\n" query the error and enter `MSTA_ERROR`. -/
def conf (r : Reader) : ReadResult :=
  if containsSub (strBytes "OK\r\n") r.line then
    let r' := {r with line := [], confLine := (r.confLine + 1) % 256}
    match r.confLine with
    | 0 => .ok r' [.write "MC\r\n"]
    | 1 => .ok r' [.write (setdvlCmd r.param)]
    | 2 => .ok r' [.write (setbtCmd r.param)]
    | 3 => .ok r' [.write (setcurprofCmd r.param)]
    | 4 => .ok r' [.write "START\r\n"]
    | _ => .ok {r' with state := .seekHdr} []
  else if containsSub (strBytes "ERROR\r\n") r.line then
    .ok {r with line := [], state := .error} [.write "GETERROR\r\n"]
  else
    .ok r []

/-- Trimming of the line accumulator to the last `c_read_buffer_size`
bytes (`m_line.erase(0, m_line.size() - c_read_buffer_size)`). -/
def trimLine (l : List Nat) : List Nat :=
  if l.length > c_read_buffer_size then l.drop (l.length - c_read_buffer_size) else l

/-- `m_state < MSTA_SEEK_HDR`: the text-mode states. -/
def stateIsText : MState → Bool
  | .init => true
  | .conf => true
  | .error => true
  | _ => false

/-- Position of the first newline in the line (`m_line.find('\n')`). -/
def findNl (l : List Nat) : Option Nat := l.findIdx? (fun b => b == 10)

/-- Bytes back to a string (for the error message taken from the line). -/
def strOfBytes (l : List Nat) : String := String.mk (l.map Char.ofNat)

/-- One `Reader::read` call on the bytes returned by one transport read:
a zero-length read throws; in text mode the line is extended, trimmed and
handed to `auth`/`conf`/the error handler; in binary mode the bytes go
through the `while (pos < rv)` decoding loop. (In `MSTA_ERROR`,
`substr(0, pos - 1)` underflows for `pos = 0` and `substr` then clamps to
the whole string, which the `if pos = 0` branch reproduces.) -/
def readStep (chunk : List Nat) (r : Reader) : ReadResult :=
  if chunk.length == 0 then .err "invalid read size" []
  else if stateIsText r.state then
    let r' := {r with line := trimLine (r.line ++ chunk)}
    match r.state with
    | .init => auth r'
    | .conf => conf r'
    | _ =>
      match findNl r'.line with
      | some pos =>
        .err (strOfBytes (if pos = 0 then r'.line else r'.line.take (pos - 1))) []
      | none => .ok r' []
  else
    let res := readLoop ⟨r.state, r.cache⟩ chunk
    .ok {r with state := res.1.state, cache := res.1.cache} (res.2.map .frame)

/-- Result of `Reader::run` over a finite sequence of reads: the reader
state and events if no error occurred, or the events including the single
`IoEvent` dispatched before the loop breaks. -/
inductive RunRes
  | ok (r : Reader) (evs : List Event)
  | failed (evs : List Event)
deriving DecidableEq, Repr

/-- `Reader::run`: read in a loop; on a `runtime_error` dispatch exactly
one `IoEvent` carrying the message and break. -/
def runRdr : List (List Nat) → Reader → RunRes
  | [], r => .ok r []
  | c :: cs, r =>
    match readStep c r with
    | .ok r' evs =>
      match runRdr cs r' with
      | .ok r'' evs' => .ok r'' (evs ++ evs')
      | .failed evs' => .failed (evs ++ evs')
    | .err msg evs => .failed (evs ++ [.ioError msg])

/-- **C4.** `reconfigure`, called in any protocol state, writes the
wake/control escape sequence, forces the state to `Configuring`, resets
the configuration step counter to 0 and replaces the connection
parameters with the new ones, leaving the line and cache untouched —
regardless of the prior state. -/
theorem C4_reconfigure (r : Reader) (p : NortekParam) :
    (reconfigure p r).1.state = .conf
    ∧ (reconfigure p r).1.confLine = 0
    ∧ (reconfigure p r).1.param = p
    ∧ (reconfigure p r).1.line = r.line
    ∧ (reconfigure p r).1.cache = r.cache
    ∧ (reconfigure p r).2 = [.write c_control_seq] :=
  ⟨rfl, rfl, rfl, rfl, rfl, rfl⟩

/-- **C8.** A zero-length transport read is treated as a fatal link
error, never as "no data": from any reader state, the run loop emits
exactly one structured I/O error event (carrying the "invalid read size"
message) and terminates, processing none of the later reads. -/
theorem C8_zero_read_fatal (r : Reader) (rest : List (List Nat)) :
    runRdr ([] :: rest) r = .failed [.ioError "invalid read size"] := rfl

/-- The bytes of one "OK\r\n" reply line. -/
def okBytes : List Nat := strBytes "OK\r\n"

/-- A reader that has just entered the `Configuring` state (line cleared,
step counter 0), as `auth` or `reconfigure` leave it. -/
def mkConfReader (p : NortekParam) : Reader :=
  ⟨.conf, [], 0, [], p⟩

/-- **C6 (amended: a sixth "OK" is needed to reach `SeekHeader`).**
In `Configuring`, each "OK\r\n" line drives the next write of the fixed
ordered command list — (1) enter command menu `MC`, (2) `SETDVL` with
rate, sound velocity and salinity as decimal text, (3) `SETBT`,
(4) `SETCURPROF`, (5) `START` — so five "OK" lines drive exactly those
five writes but leave the state in `Configuring`; the sixth "OK"
(acknowledging `START`) is consumed without a further write and moves
the state to `SeekHeader`. -/
theorem C6_configuration_sequence (p : NortekParam) :
    runRdr [okBytes, okBytes, okBytes, okBytes, okBytes] (mkConfReader p)
      = .ok ⟨.conf, [], 5, [], p⟩
          [.write "MC\r\n", .write (setdvlCmd p), .write (setbtCmd p),
            .write (setcurprofCmd p), .write "START\r\n"]
    ∧ runRdr [okBytes, okBytes, okBytes, okBytes, okBytes, okBytes] (mkConfReader p)
      = .ok ⟨.seekHdr, [], 6, [], p⟩
          [.write "MC\r\n", .write (setdvlCmd p), .write (setbtCmd p),
            .write (setcurprofCmd p), .write "START\r\n"] :=
  ⟨rfl, rfl⟩

/-- Sample connection parameters (the formatted defaults of the task). -/
def sampleParam : NortekParam :=
  ⟨"nortek", "pwd", "4.0", "0.0", "0.0", "30.00", "5.00", "-20.0"⟩

/-- Counterexample to C6 as frozen: after exactly five "OK\r\n" lines the
five configuration writes have all happened, but the state is still
`Configuring`, not `SeekHeader`. -/
theorem C6_counterexample :
    runRdr [okBytes, okBytes, okBytes, okBytes, okBytes] (mkConfReader sampleParam)
      = .ok ⟨.conf, [], 5, [], sampleParam⟩
          [.write "MC\r\n", .write (setdvlCmd sampleParam), .write (setbtCmd sampleParam),
            .write (setcurprofCmd sampleParam), .write "START\r\n"]
    ∧ MState.conf ≠ MState.seekHdr := by
  exact ⟨rfl, by decide⟩

/-! ## The authentication scenario (C7) -/

/-- None of the four prompts `auth` looks for occurs in the line. -/
def noAuthMatch (l : List Nat) : Bool :=
  !containsSub (strBytes "Username: ") l && !containsSub (strBytes "Password: ") l
    && !containsSub (strBytes "Command Interface\r\n") l
    && !containsSub (strBytes "Login failed") l

theorem auth_noMatch {r : Reader} (h : noAuthMatch r.line = true) : auth r = .ok r [] := by
  simp only [noAuthMatch, Bool.and_eq_true, Bool.not_eq_true'] at h
  obtain ⟨⟨⟨h1, h2⟩, h3⟩, h4⟩ := h
  simp only [auth, h1, h2, h3, h4, Bool.false_eq_true, if_false]

theorem trimLine_eq_self {l : List Nat} (h : l.length ≤ c_read_buffer_size) :
    trimLine l = l := by
  rw [trimLine, if_neg (by omega)]

/-- Prepend events to a run result. -/
def RunRes.pre (evs : List Event) : RunRes → RunRes
  | .ok r evs' => .ok r (evs ++ evs')
  | .failed evs' => .failed (evs ++ evs')

theorem RunRes.pre_nil (res : RunRes) : RunRes.pre [] res = res := by
  cases res <;> simp [RunRes.pre]

theorem runRdr_cons_ok {c : List Nat} {r r1 : Reader} {e : List Event}
    {cs : List (List Nat)} (h : readStep c r = .ok r1 e) :
    runRdr (c :: cs) r = RunRes.pre e (runRdr cs r1) := by
  simp only [runRdr, h]
  cases hres : runRdr cs r1 <;> simp [RunRes.pre]

/-- Feeding the bytes of one prompt, split into arbitrary non-empty
chunks, to a reader in `Init` whose line holds the first `k` prompt
bytes: nothing happens until the prompt completes, and the completing
read performs exactly the prompt's action. -/
theorem feedPrompt (pat : List Nat) (r r' : Reader) (evs : List Event)
    (hst : r.state = .init) (hlen : pat.length ≤ c_read_buffer_size)
    (hno : ∀ j, j < pat.length → noAuthMatch (pat.take j) = true)
    (hfull : auth {r with line := pat} = .ok r' evs) :
    ∀ (cs : List (List Nat)), (∀ c ∈ cs, c ≠ []) →
      ∀ (k : Nat) (rest : List (List Nat)), k < pat.length → cs.flatten = pat.drop k →
      runRdr (cs ++ rest) {r with line := pat.take k}
        = RunRes.pre evs (runRdr rest r') := by
  intro cs
  induction cs with
  | nil =>
    intro hne k rest hk hflat
    exfalso
    have := congrArg List.length hflat
    simp only [List.flatten_nil, List.length_nil, List.length_drop] at this
    omega
  | cons c cs' ih =>
    intro hne k rest hk hflat
    have hc : c ≠ [] := hne c (by simp)
    have hcl : 1 ≤ c.length := List.length_pos.mpr hc
    have hflat' : c ++ cs'.flatten = pat.drop k := by simpa using hflat
    have hlenk : c.length + cs'.flatten.length = pat.length - k := by
      have := congrArg List.length hflat'
      simpa [List.length_drop] using this
    have hcform : (pat.drop k).take c.length = c := by
      rw [← hflat', List.take_left]
    have hrest : cs'.flatten = pat.drop (k + c.length) := by
      have hq : (pat.drop k).drop c.length = cs'.flatten := by
        rw [← hflat', List.drop_left]
      rw [← hq, List.drop_drop]
    have hbound : k + c.length ≤ pat.length := by omega
    have happend : pat.take k ++ c = pat.take (k + c.length) := by
      rw [List.take_add, hcform]
    have htrim : trimLine (pat.take k ++ c) = pat.take (k + c.length) := by
      rw [happend]
      exact trimLine_eq_self (by simp only [List.length_take]; omega)
    have hc0 : (c.length == 0) = false := by
      rw [beq_eq_false_iff_ne]
      omega
    rcases Nat.lt_or_ge (k + c.length) pat.length with hlt | hge
    · have hstep : readStep c {r with line := pat.take k}
          = .ok {r with line := pat.take (k + c.length)} [] := by
        simp only [readStep, hc0, Bool.false_eq_true, if_false, hst, stateIsText,
          if_true, htrim]
        exact auth_noMatch (hno (k + c.length) hlt)
      rw [List.cons_append, runRdr_cons_ok hstep,
        ih (fun x hx => hne x (List.mem_cons_of_mem c hx)) (k + c.length) rest hlt hrest,
        RunRes.pre_nil]
    · have heq : k + c.length = pat.length := by omega
      have htake : pat.take (k + c.length) = pat := by
        rw [heq, List.take_length]
      have hstep : readStep c {r with line := pat.take k} = .ok r' evs := by
        simp only [readStep, hc0, Bool.false_eq_true, if_false, hst, stateIsText,
          if_true, htrim, htake]
        rw [← hst]
        exact hfull
      have hcs' : cs' = [] := by
        have hfl : cs'.flatten = [] := by
          rw [hrest, heq, List.drop_length]
        rcases cs' with - | ⟨x, xs⟩
        · rfl
        · exact absurd ((List.flatten_eq_nil_iff.mp hfl) x (by simp))
            (hne x (by simp))
      subst hcs'
      simp only [List.cons_append, List.nil_append]
      exact runRdr_cons_ok hstep

/-- **C7 (amended: reads must not straddle prompt boundaries, and each
match clears the whole accumulated buffer — which at that point is
exactly the matched prompt).** Feeding "Username: ", then "Password: ",
then "Command Interface\r\n", each split into arbitrary non-empty reads
that do not cross from one prompt into the next, drives exactly three
writes in order — username + newline, password + newline, the
wake/control escape sequence — and leaves the machine in `Configuring`
with the step counter 0 and an empty line buffer. -/
theorem C7_auth_scenario (p : NortekParam) (cl0 : Nat) (cache0 : List Nat)
    (c1s c2s c3s : List (List Nat))
    (h1 : ∀ c ∈ c1s, c ≠ []) (h2 : ∀ c ∈ c2s, c ≠ []) (h3 : ∀ c ∈ c3s, c ≠ [])
    (hf1 : c1s.flatten = strBytes "Username: ")
    (hf2 : c2s.flatten = strBytes "Password: ")
    (hf3 : c3s.flatten = strBytes "Command Interface\r\n") :
    runRdr (c1s ++ (c2s ++ c3s)) ⟨.init, [], cl0, cache0, p⟩
      = .ok ⟨.conf, [], 0, cache0, p⟩
          [.write p.username, .write "\n", .write p.password, .write "\n",
            .write c_control_seq] := by
  have hfull1 : auth ⟨.init, strBytes "Username: ", cl0, cache0, p⟩
      = .ok ⟨.init, [], cl0, cache0, p⟩ [.write p.username, .write "\n"] := by
    have hcond : containsSub (strBytes "Username: ") (strBytes "Username: ") = true := by
      decide
    simp only [auth, hcond, if_true]
  have hfull2 : auth ⟨.init, strBytes "Password: ", cl0, cache0, p⟩
      = .ok ⟨.init, [], cl0, cache0, p⟩ [.write p.password, .write "\n"] := by
    have hc1 : containsSub (strBytes "Username: ") (strBytes "Password: ") = false := by
      decide
    have hc2 : containsSub (strBytes "Password: ") (strBytes "Password: ") = true := by
      decide
    simp only [auth, hc1, Bool.false_eq_true, if_false, hc2, if_true]
  have hfull3 : auth ⟨.init, strBytes "Command Interface\r\n", cl0, cache0, p⟩
      = .ok ⟨.conf, [], 0, cache0, p⟩ [.write c_control_seq] := by
    have hc1 : containsSub (strBytes "Username: ")
        (strBytes "Command Interface\r\n") = false := by decide
    have hc2 : containsSub (strBytes "Password: ")
        (strBytes "Command Interface\r\n") = false := by decide
    have hc3 : containsSub (strBytes "Command Interface\r\n")
        (strBytes "Command Interface\r\n") = true := by decide
    simp only [auth, hc1, hc2, hc3, Bool.false_eq_true, if_false, if_true]
  have s1 := feedPrompt (strBytes "Username: ") ⟨.init, [], cl0, cache0, p⟩
    ⟨.init, [], cl0, cache0, p⟩ [.write p.username, .write "\n"]
    rfl (by decide) (by decide) hfull1 c1s h1 0 (c2s ++ c3s) (by decide)
    (by simpa using hf1)
  have s2 := feedPrompt (strBytes "Password: ") ⟨.init, [], cl0, cache0, p⟩
    ⟨.init, [], cl0, cache0, p⟩ [.write p.password, .write "\n"]
    rfl (by decide) (by decide) hfull2 c2s h2 0 c3s (by decide)
    (by simpa using hf2)
  have s3 := feedPrompt (strBytes "Command Interface\r\n") ⟨.init, [], cl0, cache0, p⟩
    ⟨.conf, [], 0, cache0, p⟩ [.write c_control_seq]
    rfl (by decide) (by decide) hfull3 c3s h3 0 [] (by decide)
    (by simpa using hf3)
  rw [List.append_nil] at s3
  simp only [List.take_zero] at s1 s2 s3
  rw [s1, s2, s3]
  simp [RunRes.pre, runRdr]

/-- Counterexample to C7 as frozen: if the three prompts arrive in a
single read, the "Username: " match clears the *entire* accumulated
buffer — not just the matched prefix — so the password prompt and the
command-interface banner are destroyed: only one prompt is answered
(two `writeString` calls) and the state remains `Init`. -/
theorem C7_counterexample :
    runRdr [strBytes "Username: Password: Command Interface\r\n"]
        ⟨.init, [], 0, [], sampleParam⟩
      = .ok ⟨.init, [], 0, [], sampleParam⟩ [.write "nortek", .write "\n"]
    ∧ MState.init ≠ MState.conf := by
  constructor
  · rfl
  · decide

/-- Witness for the amended C7 with "Username: " split across two reads. -/
theorem C7_witness :
    runRdr ([strBytes "User", strBytes "name: "]
        ++ ([strBytes "Password: "] ++ [strBytes "Command Interface\r\n"]))
        ⟨.init, [], 0, [], sampleParam⟩
      = .ok ⟨.conf, [], 0, [], sampleParam⟩
          [.write sampleParam.username, .write "\n", .write sampleParam.password,
            .write "\n", .write c_control_seq] :=
  C7_auth_scenario sampleParam 0 [] [strBytes "User", strBytes "name: "]
    [strBytes "Password: "] [strBytes "Command Interface\r\n"]
    (by decide) (by decide) (by decide) (by decide) (by decide) (by decide)

/-! ## Task::processBottomTrack (Task.cpp) -/

/-- The little-endian 32-bit value `memcpy`d from `data + off` (the
target is little-endian). -/
def le32 (data : List Nat) (off : Nat) : Nat :=
  data.getD off 0 % 256 + 256 * (data.getD (off + 1) 0 % 256)
    + 65536 * (data.getD (off + 2) 0 % 256) + 16777216 * (data.getD (off + 3) 0 % 256)

/-- Uninterpreted IEEE-754 values: `f32 raw` is the `float` whose four
little-endian bytes are `raw`; `scale k v` multiplies by the constant
`k`. The claims settled here concern which measurements are dispatched
and from which bytes, not float arithmetic, so values stay symbolic. -/
inductive RVal
  | f32 (raw : List Nat)
  | scale (k : Nat) (v : RVal)
deriving DecidableEq, Repr

/-- The measurements `Task::processBottomTrack` can dispatch. The ground
velocity carries the twelve raw bytes of the three component floats (the
DCM rotation applied to them is float arithmetic, left symbolic) and the
3-bit validity field `(status >> 12) & 7` stored on the message. -/
inductive Meas
  | groundVelocity (vraw : List Nat) (validity : Nat)
  | pressure (v : RVal)
  | temperature (v : RVal)
deriving DecidableEq, Repr

/-- `n` bytes `memcpy`d from `data + off`. -/
def slice (data : List Nat) (off n : Nat) : List Nat := (data.drop off).take n

/-- `Task::processBottomTrack`: read the status word at
`HDR_SIZE + 20`; dispatch the (rotated) velocity only when
`((status >> 12) & 0x07) == 0x07`; then always dispatch the pressure
(float at `HDR_SIZE + 32`, times 1000) and the temperature (float at
`HDR_SIZE + 28`, unscaled), in that order. -/
def processBottomTrack (data : List Nat) : List Meas :=
  let status := le32 data (HDR_SIZE + 20)
  (if (status >>> 12) &&& 0x07 == 0x07
    then [Meas.groundVelocity (slice data (HDR_SIZE + 132) 12) ((status >>> 12) &&& 0x07)]
    else [])
  ++ [Meas.pressure (.scale 1000 (.f32 (slice data (HDR_SIZE + 32) 4))),
      Meas.temperature (.f32 (slice data (HDR_SIZE + 28) 4))]

/-- `Task::processFrame`: dispatch on the type byte at offset 2 of the
frame; `0x1B` is bottom-track, `0x16` the (skipped) average-data record,
anything else is logged as unsupported and discarded. -/
inductive FrameOut
  | bt (ms : List Meas)
  | avg
  | unsupported (ty : Nat)
deriving DecidableEq, Repr

def processFrame (data : List Nat) : FrameOut :=
  match data.getD 2 0 % 256 with
  | 0x1B => .bt (processBottomTrack data)
  | 0x16 => .avg
  | t => .unsupported t

/-- The code's mask test `((status >> 12) & 7) == 7` holds exactly when
the three beam-validity bits 12, 13 and 14 of the status word are set. -/
theorem bits_iff_mask (s : Nat) :
    ((s >>> 12) &&& 7 = 7) ↔ (s.testBit 12 ∧ s.testBit 13 ∧ s.testBit 14) := by
  have h3 := Nat.and_pow_two_sub_one_eq_mod (s >>> 12) 3
  norm_num at h3
  rw [h3, Nat.shiftRight_eq_div_pow]
  simp only [Nat.testBit_to_div_mod, decide_eq_true_eq]
  have e1 : s / 2 ^ 12 / 2 = s / 2 ^ 13 := by
    rw [Nat.div_div_eq_div_mul]
    norm_num
  have e2 : s / 2 ^ 12 / 4 = s / 2 ^ 14 := by
    rw [Nat.div_div_eq_div_mul]
    norm_num
  rw [← e1, ← e2]
  omega

/-- **C5.** For every decoded bottom-track frame, the velocity
measurement is forwarded if and only if all three validity bits — bits
12, 13 and 14 of the 32-bit status word — are set; when only some of
them are set the velocity entry is absent and only pressure and
temperature are dispatched. -/
theorem C5_velocity_validity (data : List Nat) (h : 154 ≤ data.length) :
    processBottomTrack data
      = (if (le32 data (HDR_SIZE + 20)).testBit 12 ∧ (le32 data (HDR_SIZE + 20)).testBit 13
            ∧ (le32 data (HDR_SIZE + 20)).testBit 14
         then [Meas.groundVelocity (slice data (HDR_SIZE + 132) 12)
                ((le32 data (HDR_SIZE + 20) >>> 12) &&& 0x07)]
         else [])
        ++ [Meas.pressure (.scale 1000 (.f32 (slice data (HDR_SIZE + 32) 4))),
            Meas.temperature (.f32 (slice data (HDR_SIZE + 28) 4))] := by
  simp only [processBottomTrack]
  congr 1
  refine if_congr ?_ rfl rfl
  rw [beq_iff_eq]
  exact bits_iff_mask (le32 data (HDR_SIZE + 20))

/-- Witness for C5 at a concrete 154-byte frame (status word 0). -/
theorem C5_witness :
    processBottomTrack (List.replicate 154 0)
      = (if (le32 (List.replicate 154 0) (HDR_SIZE + 20)).testBit 12
            ∧ (le32 (List.replicate 154 0) (HDR_SIZE + 20)).testBit 13
            ∧ (le32 (List.replicate 154 0) (HDR_SIZE + 20)).testBit 14
         then [Meas.groundVelocity (slice (List.replicate 154 0) (HDR_SIZE + 132) 12)
                ((le32 (List.replicate 154 0) (HDR_SIZE + 20) >>> 12) &&& 0x07)]
         else [])
        ++ [Meas.pressure (.scale 1000 (.f32 (slice (List.replicate 154 0) (HDR_SIZE + 32) 4))),
            Meas.temperature (.f32 (slice (List.replicate 154 0) (HDR_SIZE + 28) 4))] :=
  C5_velocity_validity (List.replicate 154 0) (by simp)

/-- **C10.** For every decoded bottom-track frame, a pressure measurement
— the payload float at offset 32 (frame offset `HDR_SIZE + 32`)
multiplied by 1000 — and a temperature measurement — the payload float at
offset 28, unscaled — are always dispatched; in particular, when the
three validity bits are not all set and no velocity is forwarded, the
output is exactly those two measurements. -/
theorem C10_pressure_temperature_always (data : List Nat) (h : 154 ≤ data.length) :
    Meas.pressure (.scale 1000 (.f32 (slice data (HDR_SIZE + 32) 4)))
        ∈ processBottomTrack data
    ∧ Meas.temperature (.f32 (slice data (HDR_SIZE + 28) 4)) ∈ processBottomTrack data
    ∧ (¬ ((le32 data (HDR_SIZE + 20) >>> 12) &&& 0x07 = 0x07) →
        processBottomTrack data
          = [Meas.pressure (.scale 1000 (.f32 (slice data (HDR_SIZE + 32) 4))),
             Meas.temperature (.f32 (slice data (HDR_SIZE + 28) 4))]) := by
  refine ⟨?_, ?_, ?_⟩
  · simp [processBottomTrack]
  · simp [processBottomTrack]
  · intro hne
    have hbeq : ((le32 data (HDR_SIZE + 20) >>> 12) &&& 0x07 == 0x07) = false :=
      beq_eq_false_iff_ne.mpr hne
    simp [processBottomTrack, hbeq]

/-- Witness for C10 at a concrete 154-byte frame. -/
theorem C10_witness :
    Meas.pressure (.scale 1000 (.f32 (slice (List.replicate 154 0) (HDR_SIZE + 32) 4)))
        ∈ processBottomTrack (List.replicate 154 0)
    ∧ Meas.temperature (.f32 (slice (List.replicate 154 0) (HDR_SIZE + 28) 4))
        ∈ processBottomTrack (List.replicate 154 0)
    ∧ (¬ ((le32 (List.replicate 154 0) (HDR_SIZE + 20) >>> 12) &&& 0x07 = 0x07) →
        processBottomTrack (List.replicate 154 0)
          = [Meas.pressure (.scale 1000
                (.f32 (slice (List.replicate 154 0) (HDR_SIZE + 32) 4))),
             Meas.temperature (.f32 (slice (List.replicate 154 0) (HDR_SIZE + 28) 4))]) :=
  C10_pressure_temperature_always (List.replicate 154 0) (by simp)

end NortekDVL
